import Mathlib

/-!
# carbon-c-relay: the statistics collector

A shallow embedding of `collector.c` (the collector thread that reports the
relay's own counters, and the writer thread that warns about drops) together
with the field widths declared in `aggregator.h`.

Conventions of the embedding:

* pointers are natural numbers, `NULL` is `0`; a NULL-terminated pointer array
  is the list of its entries before the terminating `NULL`;
* a `char` array is a `List Char` of the array's length, a C string is the
  bytes before the first NUL;
* `size_t` is `Nat` reduced modulo `2 ^ w`, the width `w` being a parameter;
* functions of the relay whose code lives in other translation units
  (`server_get_*`, `dispatch_get_*`, `aggregator_get_*`, `router_getservers`,
  ...) are parameters: an environment that answers each call from a world state
  and returns the next world state, so that the delta (`_sub`) accessors may
  change what later calls see;
* a read or write outside an array is undefined behaviour in C. Preparing the
  metric prefix returns `none` when it happens. The scan of `ipbuf` in the
  server loop has no exit of its own: when the array holds no NUL it goes on
  through the bytes that follow the array, which the environment supplies up
  to their first NUL and which are taken not to overlap the other locals; the
  trace is marked (`fault`) and the cycle carries on as the compiled code does.
-/

namespace Collector

/-! ## C strings and character arrays -/

/-- The terminating byte of a C string. -/
def NUL : Char := Char.ofNat 0

/-- The C string held in a byte sequence: the bytes before the first NUL. -/
def cstr (s : List Char) : List Char := s.takeWhile (fun c => c != NUL)

/-- The C library function of the same name. -/
def strlen (s : List Char) : Nat := (cstr s).length

/-- Store the bytes `xs` at the start of the array `buf` (the array keeps its
length; every caller below stores at most `buf.length` bytes). -/
def poke (buf xs : List Char) : List Char := xs.take buf.length ++ buf.drop xs.length

/-- The call `snprintf(buf, size, fmt, ...)` where `text` is the complete
formatted output: at most `size - 1` bytes of `text` are stored, then a NUL;
nothing is stored when `size` is 0. -/
def snprintf (buf : List Char) (size : Nat) (text : List Char) : List Char :=
  if size = 0 then buf else poke buf (text.take (size - 1) ++ [NUL])

/-- The call `strncpy(buf, src, n)`: the first `n` bytes of the C string `src`
are copied and the remainder of the `n` bytes is filled with NUL. When
`strlen src ≥ n` no NUL is stored at all. -/
def strncpy (buf src : List Char) (n : Nat) : List Char :=
  poke buf ((cstr src).take n ++ List.replicate (n - strlen src) NUL)

/-- The replacement applied to each byte by the two scanning loops. -/
def underscore (c : Char) : Char := if c = '.' then '_' else c

/-- The loop `for (p = start; *p != '\0'; p++) if (*p == '.') *p = '_';`
(collector.c lines 85-87 and 220-222) run on the bytes from `start` to the end
of the array. The result is the bytes after the loop and the number of times
`p` was incremented; `none` when `p` runs off the end of the array without
meeting a NUL. -/
def underscore_dots : List Char → Option (List Char × Nat)
  | [] => none
  | c :: rest =>
    if c = NUL then some (c :: rest, 0)
    else match underscore_dots rest with
      | none => none
      | some (rest', k) => some (underscore c :: rest', k + 1)

/-! ## The metric name prefix (collector.c lines 83-90) -/

/-- The literal `"carbon.relays."`. -/
def carbon_relays : List Char := "carbon.relays.".toList

/-- The locals `metric`, `m` (as an offset into `metric`) and `sizem` once the
prefix is prepared. -/
structure Prepared where
  metric : List Char
  m : Nat
  sizem : Nat
deriving DecidableEq, Repr

/-- Lines 84-90 of `collector_runner`. `metric` is the (uninitialised) array
`char metric[METRIC_BUFSIZ]`, so `METRIC_BUFSIZ = metric.length`. The result
is `none` when a read or write falls outside the array. -/
def prepare_hostname (metric relay_hostname : List Char) : Option Prepared :=
  -- snprintf(metric, sizeof(metric), "carbon.relays.%s", relay_hostname);
  let metric1 := snprintf metric metric.length (carbon_relays ++ cstr relay_hostname)
  -- for (m = metric + strlen("carbon.relays."); *m != '\0'; m++) ...
  match underscore_dots (metric1.drop carbon_relays.length) with
  | none => none
  | some (tail, k) =>
    let metric2 := metric1.take carbon_relays.length ++ tail
    let m := carbon_relays.length + k
    -- *m++ = '.';
    if m < metric2.length then
      let metric3 := metric2.set m '.'
      let m1 := m + 1
      -- *m = '\0';
      if m1 < metric3.length then
        -- sizem = sizeof(metric) - (m - metric);
        some ⟨metric3.set m1 NUL, m1, metric.length - m1⟩
      else none
    else none

/-! ## Field widths of `struct _aggregator` (aggregator.h lines 27-31) -/

/-- Largest value of the `unsigned short` fields `interval` and `expire`. -/
def USHRT_MAX : Nat := 65535

/-- Largest value of the `unsigned char` field `bucketcnt`. -/
def UCHAR_MAX : Nat := 255

/-- Storing a number in the `unsigned char bucketcnt` field. -/
def store_bucketcnt (n : Nat) : Nat := n % (UCHAR_MAX + 1)

/-- Modelled from the spec: `aggregator_new` (aggregator.c), which fills in
`bucketcnt`, is not among the sources. The spec describes `bucketCount` as the
"number of simultaneously retained windows per Invocation (derived from
expire/interval)"; this is the number of `interval`-wide windows needed to
cover `expire` seconds, the ceiling of `expire / interval`. -/
def windows_needed (interval expire : Nat) : Nat := (expire + interval - 1) / interval

/-! ## Pointers and the file-scope state (collector.c lines 31-38, 279-280) -/

/-- Pointers (`cluster *`, `aggregator *`, `server *`, `dispatcher *`). -/
abbrev Ptr := Nat

/-- The null pointer. -/
def NULL : Ptr := 0

/-- The run mode of the relay (the global `mode`). Its declaration is in
relay.h, which is not among the sources; the four constants collector.c
compares `mode` with are named, every other mode is `other`. -/
inductive rmode
  | DEBUG
  | DEBUGTEST
  | DEBUGSUBMISSION
  | SUBMISSION
  | other (n : Nat)
deriving DecidableEq, Repr

/-- The static variables of collector.c. `dispatchers` is the array the
pointer of that name refers to. -/
structure Globals where
  dispatchers : List Ptr
  debug : Nat
  keep_running : Nat
  collector_interval : Nat
  cluster_refresh_pending : Nat
  pending_clusters : Ptr
  pending_aggrs : Ptr
  lastdropped : Nat
  lastaggrdropped : Nat
deriving DecidableEq, Repr

/-- The initial values given by the declarations (`debug = 0`,
`keep_running = 1`, `collector_interval = 60`, no refresh pending). -/
def Globals.init : Globals :=
  { dispatchers := [], debug := 0, keep_running := 1, collector_interval := 60,
    cluster_refresh_pending := 0, pending_clusters := NULL, pending_aggrs := NULL,
    lastdropped := 0, lastaggrdropped := 0 }

/-- The locals `srvs`, `aggrs` and `numaggregators` of `collector_runner`
and of `collector_writer`: the configuration the thread works with. `srvs` is
`none` while the pointer is NULL. -/
structure Working where
  srvs : Option (List Ptr)
  aggrs : Ptr
  numaggregators : Nat
deriving DecidableEq, Repr

/-- The initial values of these locals (`srvs = NULL`, `aggrs = NULL`,
`numaggregators = 0`). -/
def Working.init : Working := { srvs := none, aggrs := NULL, numaggregators := 0 }

/-- The two functions of other translation units that the refresh block
calls: `router_getservers(clusters)` returns a freshly allocated
NULL-terminated array of servers, `aggregator_numaggregators(aggrs)` a count. -/
structure Config where
  router_getservers : Ptr → Option (List Ptr)
  aggregator_numaggregators : Ptr → Nat

/-- The function `collector_schedulereload` (lines 409-415). -/
def collector_schedulereload (c a : Ptr) (g : Globals) : Globals :=
  { g with pending_clusters := c, pending_aggrs := a, cluster_refresh_pending := 1 }

/-- The function `collector_reloadcomplete` (lines 421-425). -/
def collector_reloadcomplete (g : Globals) : Bool := g.cluster_refresh_pending == 0

/-- The refresh block at the top of the loop of `collector_runner`
(lines 125-133). Freeing the old array has no effect on the modelled state. -/
def collector_runner_refresh (cfg : Config) (g : Globals) (wk : Working) : Globals × Working :=
  if g.cluster_refresh_pending ≠ 0 then
    let newservers := cfg.router_getservers g.pending_clusters
    let wk1 := { wk with srvs := newservers }
    let wk2 := { wk1 with aggrs := g.pending_aggrs }
    let wk3 := { wk2 with numaggregators := cfg.aggregator_numaggregators wk2.aggrs }
    ({ g with cluster_refresh_pending := 0 }, wk3)
  else (g, wk)

/-- The refresh block at the top of the loop of `collector_writer`
(lines 296-304). -/
def collector_writer_refresh (cfg : Config) (g : Globals) (wk : Working) : Globals × Working :=
  if g.cluster_refresh_pending ≠ 0 then
    let newservers := cfg.router_getservers g.pending_clusters
    let wk1 := { wk with srvs := newservers }
    let wk2 := { wk1 with aggrs := g.pending_aggrs }
    let wk3 := { wk2 with numaggregators := cfg.aggregator_numaggregators wk2.aggrs }
    ({ g with cluster_refresh_pending := 0 }, wk3)
  else (g, wk)

/-- The two atomic steps of the reload protocol: a call of
`collector_schedulereload(c, a)` by the controlling thread, and one run of the
refresh block by the collector thread. -/
inductive Event
  | schedulereload (c a : Ptr)
  | refresh
deriving DecidableEq, Repr

/-- One atomic step. -/
def step (cfg : Config) (s : Globals × Working) : Event → Globals × Working
  | .schedulereload c a => (collector_schedulereload c a s.1, s.2)
  | .refresh => collector_runner_refresh cfg s.1 s.2

/-- The state reached from `s` by a sequence of steps (oldest first). -/
def run_events (cfg : Config) (s : Globals × Working) (es : List Event) : Globals × Working :=
  es.foldl (step cfg) s

/-- The arguments of the most recent `collector_schedulereload` call in a
sequence of steps, if there is one. -/
def last_scheduled : List Event → Option (Ptr × Ptr)
  | [] => none
  | e :: es =>
    match last_scheduled es with
    | some ca => some ca
    | none =>
      match e with
      | .schedulereload c a => some (c, a)
      | .refresh => none

/-! ## The environment of the collector -/

/-- Arithmetic in `size_t`: reduction modulo `2 ^ w`. -/
def size_t (w n : Nat) : Nat := n % 2 ^ w

/-- Subtraction in `size_t` (it wraps around below zero). -/
def size_t_sub (w a b : Nat) : Nat := size_t w (a + (2 ^ w - size_t w b))

/-- The functions of other translation units that the collector calls to read
counters and gauges. -/
inductive Fn
  | server_get_ticks
  | server_get_metrics
  | server_get_stalls
  | server_get_dropped
  | server_get_ticks_sub
  | server_get_metrics_sub
  | server_get_stalls_sub
  | server_get_dropped_sub
  | dispatch_get_ticks
  | dispatch_get_metrics
  | dispatch_get_blackholes
  | dispatch_get_ticks_sub
  | dispatch_get_metrics_sub
  | dispatch_get_blackholes_sub
  | aggregator_get_received
  | aggregator_get_sent
  | aggregator_get_dropped
  | aggregator_get_received_sub
  | aggregator_get_sent_sub
  | aggregator_get_dropped_sub
  | server_get_queue_len
  | server_get_queue_size
  | dispatch_busy
  | dispatch_get_accepted_connections
  | dispatch_get_closed_connections
deriving DecidableEq, Repr

/-- The connection type of a server (`server_ctype`). The declaration is in
server.h, not among the sources; collector.c only compares with `CON_FILE`. -/
inductive con_type
  | CON_FILE
  | other (n : Nat)
deriving DecidableEq, Repr

/-- One metric line handed to the `send` step: the arguments of the `snprintf`
call that formats it. `name` is the text of the format up to the first blank
with `%s` and `%d` filled in, `value` and `now` are the two `%zu` arguments
(see `metric_text` for the bytes that are sent). -/
structure Line where
  name : List Char
  value : Nat
  now : Nat
deriving DecidableEq, Repr

/-- Where the `send` step puts a line: `logout` (when `debug & 1`), or
`server_send` to the submission server. -/
inductive Sink
  | stdout
  | submission (s : Ptr)
deriving DecidableEq, Repr

/-- The environment: every call of a counter function `f(p)` is answered from
the current world state and yields the next world state; `server_send` acts on
the world as well. The properties of a server (`server_ctype`, `server_ip`,
`server_port`) are fixed. `beyond_ipbuf` holds the bytes that follow the array
`ipbuf` in memory, of which a scan that leaves the array sees those before the
first NUL. The two floating point computations of the writer,
`(double)queued / (double)queuesize >= 0.75` and `(int)(queueusage * 100)`, are
left to the environment. -/
structure Env (σ : Type) where
  call : Fn → Ptr → σ → Nat × σ
  server_send : Ptr → Line → σ → σ
  server_ctype : Ptr → con_type
  server_ip : Ptr → List Char
  server_port : Ptr → Nat
  beyond_ipbuf : List Char
  usage_ge_075 : Nat → Nat → Bool
  usage_percent : Nat → Nat → Int

/-- One step of a piece of collector code as seen from outside: the call
`f(p)` together with the value it returned, or one piece of output. -/
inductive Ev (ο : Type)
  | call (f : Fn) (p : Ptr) (answer : Nat)
  | out (o : ο)

/-- The trace of a piece of collector code: the world state, the counter
functions called so far (oldest first), the output so far (oldest first),
whether a scan has left its array, and all calls and outputs in the order in
which they happened. -/
structure Run (σ ο : Type) where
  world : σ
  calls : List (Fn × Ptr)
  out : List ο
  fault : Bool
  trace : List (Ev ο) := []

/-- The value returned by the call `f(p)` made now. -/
def Run.peek {σ ο : Type} (env : Env σ) (f : Fn) (p : Ptr) (r : Run σ ο) : Nat :=
  (env.call f p r.world).1

/-- The trace after the call `f(p)`. -/
def Run.call {σ ο : Type} (env : Env σ) (f : Fn) (p : Ptr) (r : Run σ ο) : Run σ ο :=
  { r with world := (env.call f p r.world).2, calls := r.calls ++ [(f, p)],
           trace := r.trace ++ [Ev.call f p (env.call f p r.world).1] }

/-- The ten function pointers set up in lines 72-81. -/
structure Accessors where
  s_ticks : Fn
  s_metrics : Fn
  s_stalls : Fn
  s_dropped : Fn
  d_ticks : Fn
  d_metrics : Fn
  d_blackholes : Fn
  a_received : Fn
  a_sent : Fn
  a_dropped : Fn
deriving DecidableEq, Repr

/-- The delta accessors (lines 94-103). -/
def sub_accessors : Accessors :=
  { s_ticks := .server_get_ticks_sub, s_metrics := .server_get_metrics_sub,
    s_stalls := .server_get_stalls_sub, s_dropped := .server_get_dropped_sub,
    d_ticks := .dispatch_get_ticks_sub, d_metrics := .dispatch_get_metrics_sub,
    d_blackholes := .dispatch_get_blackholes_sub,
    a_received := .aggregator_get_received_sub, a_sent := .aggregator_get_sent_sub,
    a_dropped := .aggregator_get_dropped_sub }

/-- The cumulative accessors (lines 105-114). -/
def cumulative_accessors : Accessors :=
  { s_ticks := .server_get_ticks, s_metrics := .server_get_metrics,
    s_stalls := .server_get_stalls, s_dropped := .server_get_dropped,
    d_ticks := .dispatch_get_ticks, d_metrics := .dispatch_get_metrics,
    d_blackholes := .dispatch_get_blackholes,
    a_received := .aggregator_get_received, a_sent := .aggregator_get_sent,
    a_dropped := .aggregator_get_dropped }

/-- Lines 92-115: `if (debug & 2)` the delta accessors, else the cumulative
ones. -/
def select_accessors (debug : Nat) : Accessors :=
  if debug &&& 2 ≠ 0 then sub_accessors else cumulative_accessors

/-- The thread that `collector_start` creates. -/
inductive Thread
  | collector_runner
  | collector_writer
deriving DecidableEq, Repr

/-- The function `collector_start` (lines 430-447): the new file-scope state
and the thread function passed to `pthread_create` (whose failure is only
logged). `cum` is the `char` argument. -/
def collector_start (mode : rmode) (d : List Ptr) (c a : Ptr) (cum : Nat) (g : Globals) :
    Globals × Thread :=
  let g1 := { g with dispatchers := d }
  let g2 := collector_schedulereload c a g1
  let g3 := if mode = .DEBUG ∨ mode = .DEBUGTEST ∨ mode = .DEBUGSUBMISSION
    then { g2 with debug := 1 } else g2
  let g4 := { g3 with debug := g3.debug ||| (if cum ≠ 0 then 0 else 2) }
  (g4, if mode ≠ .SUBMISSION ∧ mode ≠ .DEBUGSUBMISSION
    then Thread.collector_runner else Thread.collector_writer)

/-! ## The emission cycle of `collector_runner` (lines 139-267) -/

/-- Decimal text of a number, as printed by `%u`, `%d` (non-negative) and
`%zu`. -/
def utoa (n : Nat) : List Char := Nat.toDigits 10 n

/-- The output of the format `"<name> %zu %zu\n"` for a line. -/
def Line.format (l : Line) : List Char :=
  l.name ++ ' ' :: utoa l.value ++ ' ' :: utoa l.now ++ [Char.ofNat 10]

/-- The C string in `metric` after `snprintf(m, sizem, ...)` for a line: the
prepared prefix followed by the formatted line, cut at `sizem - 1` bytes. -/
def metric_text (p : Prepared) (l : Line) : List Char :=
  p.metric.take p.m ++ l.format.take (p.sizem - 1)

/-- The `send(metric)` step (lines 117-121): `logout` when `debug & 1`, else
`server_send(submission, strdup(metric), 1)`. -/
def Run.send {σ : Type} (env : Env σ) (debug : Nat) (submission : Ptr) (r : Run σ (Sink × Line))
    (l : Line) : Run σ (Sink × Line) :=
  if debug &&& 1 ≠ 0 then
    { r with out := r.out ++ [(Sink.stdout, l)],
             trace := r.trace ++ [Ev.out (Sink.stdout, l)] }
  else
    { r with world := env.server_send submission l r.world,
             out := r.out ++ [(Sink.submission submission, l)],
             trace := r.trace ++ [Ev.out (Sink.submission submission, l)] }

/-- Several `snprintf` + `send` steps in a row. -/
def Run.sends {σ : Type} (env : Env σ) (debug : Nat) (submission : Ptr)
    (r : Run σ (Sink × Line)) (ls : List Line) : Run σ (Sink × Line) :=
  ls.foldl (Run.send env debug submission) r

/-- The locals `totticks`, `totmetrics`, `totblackholes`, `dispatchers_idle`
and `dispatchers_busy` of the dispatcher loop. -/
structure DispTotals where
  totticks : Nat
  totmetrics : Nat
  totblackholes : Nat
  dispatchers_idle : Nat
  dispatchers_busy : Nat
deriving DecidableEq, Repr

/-- Four values for one dispatcher: that of `dispatch_busy`, and those of
`ticks`, `metrics` and `blackholes`. -/
structure DispVals where
  busy : Nat
  ticks : Nat
  metrics : Nat
  blackholes : Nat
deriving DecidableEq, Repr

/-- The returned values as stored: `ticks`, `metrics` and `blackholes` are
`size_t` locals. -/
def DispVals.locals (w : Nat) (v : DispVals) : DispVals :=
  { busy := v.busy, ticks := size_t w v.ticks, metrics := size_t w v.metrics,
    blackholes := size_t w v.blackholes }

/-- The four calls for one dispatcher, in the order of lines 146-153, with the
values they return. -/
def dispatcher_read {σ ο : Type} (env : Env σ) (acc : Accessors) (d : Ptr)
    (r : Run σ ο) : DispVals × Run σ ο :=
  let r1 := r.call env .dispatch_busy d
  let r2 := r1.call env acc.d_ticks d
  let r3 := r2.call env acc.d_metrics d
  ({ busy := r.peek env .dispatch_busy d,
     ticks := r1.peek env acc.d_ticks d,
     metrics := r2.peek env acc.d_metrics d,
     blackholes := r3.peek env acc.d_blackholes d },
   r3.call env acc.d_blackholes d)

/-- The updates of the counters and totals in lines 146-153. -/
def dispatcher_add (w : Nat) (t : DispTotals) (v : DispVals) : DispTotals :=
  { totticks := size_t w (t.totticks + v.ticks),
    totmetrics := size_t w (t.totmetrics + v.metrics),
    totblackholes := size_t w (t.totblackholes + v.blackholes),
    dispatchers_idle :=
      if v.busy ≠ 0 then t.dispatchers_idle else size_t w (t.dispatchers_idle + 1),
    dispatchers_busy :=
      if v.busy ≠ 0 then size_t w (t.dispatchers_busy + 1) else t.dispatchers_busy }

/-- The three lines sent for dispatcher number `i` (lines 154-162). -/
def dispatcher_lines (now i : Nat) (v : DispVals) : List Line :=
  [ ⟨"dispatcher".toList ++ utoa (i + 1) ++ ".metricsReceived".toList, v.metrics, now⟩,
    ⟨"dispatcher".toList ++ utoa (i + 1) ++ ".metricsBlackholed".toList, v.blackholes, now⟩,
    ⟨"dispatcher".toList ++ utoa (i + 1) ++ ".wallTime_us".toList, v.ticks, now⟩ ]

/-- The loop over `dispatchers[i]` (lines 145-163), started at index `i`. -/
def dispatcher_loop {σ : Type} (env : Env σ) (w debug : Nat) (acc : Accessors)
    (submission now : Nat) :
    Nat → List Ptr → DispTotals → Run σ (Sink × Line) → DispTotals × Run σ (Sink × Line)
  | _, [], t, r => (t, r)
  | i, d :: ds, t, r =>
    let rd := dispatcher_read env acc d r
    dispatcher_loop env w debug acc submission now (i + 1) ds
      (dispatcher_add w t (rd.1.locals w))
      (rd.2.sends env debug submission (dispatcher_lines now i (rd.1.locals w)))

/-- The five lines after the dispatcher loop (lines 164-178). -/
def dispatch_total_lines (now : Nat) (t : DispTotals) : List Line :=
  [ ⟨"metricsReceived".toList, t.totmetrics, now⟩,
    ⟨"metricsBlackholed".toList, t.totblackholes, now⟩,
    ⟨"dispatch_wallTime_us".toList, t.totticks, now⟩,
    ⟨"dispatch_busy".toList, t.dispatchers_busy, now⟩,
    ⟨"dispatch_idle".toList, t.dispatchers_idle, now⟩ ]

/-- Five values for one server: those of `ticks`, `metrics`, `queued`,
`stalls` and `dropped`. -/
structure ServerVals where
  ticks : Nat
  metrics : Nat
  queued : Nat
  stalls : Nat
  dropped : Nat
deriving DecidableEq, Repr

/-- The returned values as stored in the `size_t` locals. -/
def ServerVals.locals (w : Nat) (v : ServerVals) : ServerVals :=
  { ticks := size_t w v.ticks, metrics := size_t w v.metrics, queued := size_t w v.queued,
    stalls := size_t w v.stalls, dropped := size_t w v.dropped }

/-- The five calls for one server, in the order of lines 206-210 and 224-228,
with the values they return. -/
def server_read {σ ο : Type} (env : Env σ) (acc : Accessors) (s : Ptr)
    (r : Run σ ο) : ServerVals × Run σ ο :=
  let r1 := r.call env acc.s_ticks s
  let r2 := r1.call env acc.s_metrics s
  let r3 := r2.call env .server_get_queue_len s
  let r4 := r3.call env acc.s_stalls s
  ({ ticks := r.peek env acc.s_ticks s,
     metrics := r1.peek env acc.s_metrics s,
     queued := r2.peek env .server_get_queue_len s,
     stalls := r3.peek env acc.s_stalls s,
     dropped := r4.peek env acc.s_dropped s },
   r4.call env acc.s_dropped s)

/-- The five lines of `send_server_metrics` (lines 180-195); `label` is the C
string in `ipbuf`. -/
def send_server_metrics (now : Nat) (label : List Char) (v : ServerVals) : List Line :=
  [ ⟨"destinations.".toList ++ label ++ ".sent".toList, v.metrics, now⟩,
    ⟨"destinations.".toList ++ label ++ ".queued".toList, v.queued, now⟩,
    ⟨"destinations.".toList ++ label ++ ".stalls".toList, v.stalls, now⟩,
    ⟨"destinations.".toList ++ label ++ ".dropped".toList, v.dropped, now⟩,
    ⟨"destinations.".toList ++ label ++ ".wallTime_us".toList, v.ticks, now⟩ ]

/-- The locals `totticks`, `totmetrics`, `totqueued`, `totstalls` and
`totdropped` of the server loop. -/
structure SrvTotals where
  totticks : Nat
  totmetrics : Nat
  totqueued : Nat
  totstalls : Nat
  totdropped : Nat
deriving DecidableEq, Repr

/-- The state carried through the server loop: the totals, the array `ipbuf`
and the trace. -/
structure SrvState (σ : Type) where
  tot : SrvTotals
  ipbuf : List Char
  run : Run σ (Sink × Line)

/-- The array `char ipbuf[32]` (line 63) on entry to a cycle. Every byte is
overwritten by the `strncpy` of line 205 before any byte is read. -/
def ipbuf_init : List Char := List.replicate 32 NUL

/-- Lines 214-219: the label of server `s` is written into `ipbuf`, by
`strncpy` for a `CON_FILE` server and by `snprintf` of `"%s:%u"` otherwise;
`sizeof(ipbuf)` is the length of the array. -/
def server_label {σ : Type} (env : Env σ) (ipbuf : List Char) (s : Ptr) : List Char :=
  if env.server_ctype s = con_type.CON_FILE then
    strncpy ipbuf (env.server_ip s) ipbuf.length
  else
    snprintf ipbuf ipbuf.length (cstr (env.server_ip s) ++ ':' :: utoa (env.server_port s))

/-- Lines 224-229: the five reads for server `s`, the totals, and the five
lines sent under `label`, the string that `"%s"` finds at `ipbuf`; `ipbuf` is
the array as the scan left it. -/
def server_pass {σ : Type} (env : Env σ) (w debug : Nat) (acc : Accessors)
    (submission now : Nat) (s : Ptr) (st : SrvState σ) (ipbuf label : List Char) : SrvState σ :=
  let rd := server_read env acc s st.run
  { tot := { totticks := size_t w (st.tot.totticks + (rd.1.locals w).ticks),
             totmetrics := size_t w (st.tot.totmetrics + (rd.1.locals w).metrics),
             totqueued := size_t w (st.tot.totqueued + (rd.1.locals w).queued),
             totstalls := size_t w (st.tot.totstalls + (rd.1.locals w).stalls),
             totdropped := size_t w (st.tot.totdropped + (rd.1.locals w).dropped) },
    ipbuf := ipbuf,
    run := rd.2.sends env debug submission (send_server_metrics now label (rd.1.locals w)) }

/-- The loop over `srvs[i]` (lines 213-230). When `ipbuf` holds a NUL the scan
of lines 220-222 stays in the array and the label is the string in it. When it
holds none, the scan replaces the dots of all of `ipbuf` and goes on through
the bytes after the array up to their first NUL, the trace is marked, and the
label that `"%s"` reads is the array followed by those bytes; the loop goes on
either way. -/
def server_loop {σ : Type} (env : Env σ) (w debug : Nat) (acc : Accessors)
    (submission now : Nat) : List Ptr → SrvState σ → SrvState σ
  | [], st => st
  | s :: rest, st =>
    match underscore_dots (server_label env st.ipbuf s) with
    | none =>
      server_loop env w debug acc submission now rest
        (server_pass env w debug acc submission now s
          { st with run := { st.run with fault := true } }
          ((server_label env st.ipbuf s).map underscore)
          ((server_label env st.ipbuf s ++ cstr env.beyond_ipbuf).map underscore))
    | some scanned =>
      server_loop env w debug acc submission now rest
        (server_pass env w debug acc submission now s st scanned.1 (cstr scanned.1))

/-- The five lines after the server loop (lines 232-246). -/
def server_total_lines (now : Nat) (t : SrvTotals) : List Line :=
  [ ⟨"metricsSent".toList, t.totmetrics, now⟩,
    ⟨"metricsQueued".toList, t.totqueued, now⟩,
    ⟨"metricStalls".toList, t.totstalls, now⟩,
    ⟨"metricsDropped".toList, t.totdropped, now⟩,
    ⟨"server_wallTime_us".toList, t.totticks, now⟩ ]

/-- One call `f(p)` whose result is the value of the line `name` sent right
after it. -/
def Run.report {σ : Type} (env : Env σ) (w debug : Nat) (submission now : Nat)
    (r : Run σ (Sink × Line)) (name : String) (f : Fn) (p : Ptr) : Run σ (Sink × Line) :=
  (r.call env f p).send env debug submission ⟨name.toList, size_t w (r.peek env f p), now⟩

/-- Lines 247-264: connections, disconnects and, when `numaggregators > 0`, the
three aggregator lines. -/
def cycle_tail {σ : Type} (env : Env σ) (w debug : Nat) (acc : Accessors)
    (submission aggrs numaggregators now : Nat) (r : Run σ (Sink × Line)) :
    Run σ (Sink × Line) :=
  let r1 := r.report env w debug submission now "connections"
    .dispatch_get_accepted_connections NULL
  let r2 := r1.report env w debug submission now "disconnects"
    .dispatch_get_closed_connections NULL
  if numaggregators > 0 then
    let r3 := r2.report env w debug submission now "aggregators.metricsReceived"
      acc.a_received aggrs
    let r4 := r3.report env w debug submission now "aggregators.metricsSent"
      acc.a_sent aggrs
    r4.report env w debug submission now "aggregators.metricsDropped" acc.a_dropped aggrs
  else r2

/-- One emission cycle (lines 139-267) with the working configuration
`srvs`, `aggrs`, `numaggregators`; `now` is the value of `time(NULL)`. The
closing `fflush(stdout)` does not act on the modelled state. -/
def emission_cycle {σ : Type} (env : Env σ) (w debug : Nat) (acc : Accessors)
    (dispatchers : List Ptr) (submission : Ptr) (srvs : List Ptr)
    (aggrs numaggregators now : Nat) (world : σ) : Run σ (Sink × Line) :=
  let t := size_t w now
  let dl := dispatcher_loop env w debug acc submission t 0 dispatchers ⟨0, 0, 0, 0, 0⟩
    { world := world, calls := [], out := [], fault := false }
  let r1 := dl.2.sends env debug submission (dispatch_total_lines t dl.1)
  -- strncpy(ipbuf, "internal", sizeof(ipbuf));
  let ipbuf := strncpy ipbuf_init "internal".toList ipbuf_init.length
  let iv := server_read env acc submission r1
  let r2 := iv.2.sends env debug submission
    (send_server_metrics t (cstr ipbuf) (iv.1.locals w))
  let sl := server_loop env w debug acc submission t srvs
    { tot := ⟨0, 0, 0, 0, 0⟩, ipbuf := ipbuf, run := r2 }
  cycle_tail env w debug acc submission aggrs numaggregators t
    (sl.run.sends env debug submission (server_total_lines t sl.tot))

/-- The locals of `collector_runner` that live across iterations. -/
structure RunnerLocals where
  wk : Working
  nextcycle : Nat
  acc : Accessors
deriving DecidableEq, Repr

/-- The locals when the loop is entered (lines 65-68, 92-115, 123); `now` is
the value of `time(NULL)`. -/
def collector_runner_enter (g : Globals) (now : Nat) : RunnerLocals :=
  { wk := Working.init, nextcycle := now + g.collector_interval,
    acc := select_accessors g.debug }

/-- What one iteration of the loop of `collector_runner` did. -/
inductive RunnerStep (σ : Type)
  | stopped
  | assert_failed
  | waiting
  | cycle (r : Run σ (Sink × Line))

/-- One iteration of `while (keep_running)` in `collector_runner` (lines
124-268); `now` is the value of `time(NULL)` after the `sleep(1)`. -/
def collector_runner_iteration {σ : Type} (env : Env σ) (cfg : Config) (w : Nat)
    (submission : Ptr) (g : Globals) (l : RunnerLocals) (now : Nat) (world : σ) :
    Globals × RunnerLocals × RunnerStep σ :=
  if g.keep_running = 0 then (g, l, .stopped)
  else
    let gw := collector_runner_refresh cfg g l.wk
    match gw.2.srvs with
    | none => (gw.1, { l with wk := gw.2 }, .assert_failed)
    | some srvs =>
      if l.nextcycle > now then (gw.1, { l with wk := gw.2 }, .waiting)
      else
        (gw.1, { l with wk := gw.2, nextcycle := l.nextcycle + gw.1.collector_interval },
         .cycle (emission_cycle env w gw.1.debug l.acc gw.1.dispatchers submission srvs
           gw.2.aggrs gw.2.numaggregators now world))

/-- The sink chosen by the `send` step. -/
def sink (debug : Nat) (submission : Ptr) : Sink :=
  if debug &&& 1 ≠ 0 then Sink.stdout else Sink.submission submission

/-- The lines of a trace, without their sinks. -/
def Run.lines {σ : Type} (r : Run σ (Sink × Line)) : List Line := r.out.map Prod.snd

/-- The strings handed to `logout` or `server_send` in a trace, `p` being the
prepared prefix: each line formatted behind the prefix and cut at
`sizem - 1` bytes. -/
def Run.texts {σ : Type} (p : Prepared) (r : Run σ (Sink × Line)) : List (List Char) :=
  r.lines.map (metric_text p)

/-- The ten function pointers as a list. -/
def Accessors.list (acc : Accessors) : List Fn :=
  [acc.s_ticks, acc.s_metrics, acc.s_stalls, acc.s_dropped, acc.d_ticks, acc.d_metrics,
   acc.d_blackholes, acc.a_received, acc.a_sent, acc.a_dropped]

/-- The calls of one pass of the dispatcher loop, in order. -/
def dispatcher_calls (acc : Accessors) (d : Ptr) : List (Fn × Ptr) :=
  [(Fn.dispatch_busy, d), (acc.d_ticks, d), (acc.d_metrics, d), (acc.d_blackholes, d)]

/-- The calls of the five reads for one server, in order. -/
def server_calls (acc : Accessors) (s : Ptr) : List (Fn × Ptr) :=
  [(acc.s_ticks, s), (acc.s_metrics, s), (Fn.server_get_queue_len, s), (acc.s_stalls, s),
   (acc.s_dropped, s)]

/-- The calls of a whole emission cycle, in order. -/
def cycle_calls (acc : Accessors) (dispatchers : List Ptr) (submission : Ptr)
    (srvs : List Ptr) (aggrs numaggregators : Nat) : List (Fn × Ptr) :=
  dispatchers.flatMap (dispatcher_calls acc) ++ server_calls acc submission ++
    srvs.flatMap (server_calls acc) ++
    [(Fn.dispatch_get_accepted_connections, NULL), (Fn.dispatch_get_closed_connections, NULL)] ++
    (if numaggregators > 0
      then [(acc.a_received, aggrs), (acc.a_sent, aggrs), (acc.a_dropped, aggrs)] else [])

/-- The functions read in a cycle that exist in one form only. -/
def plain_functions : List Fn :=
  [Fn.server_get_queue_len, Fn.dispatch_busy, Fn.dispatch_get_accepted_connections,
   Fn.dispatch_get_closed_connections]

/-! ## Reading a trace -/

/-- What an output of the runner does to the world: a line given to
`server_send` acts on the world, a line given to `logout` does not. -/
def send_effect {σ : Type} (env : Env σ) (o : Sink × Line) (world : σ) : σ :=
  match o.1 with
  | Sink.stdout => world
  | Sink.submission s => env.server_send s o.2 world

/-- Running a sequence of calls and outputs against the environment from a
world state: the world state at the end, provided every call in the sequence
carries the value that the environment returns at that point; `none` when one
does not. -/
def replay {σ ο : Type} (env : Env σ) (effect : ο → σ → σ) : σ → List (Ev ο) → Option σ
  | world, [] => some world
  | world, Ev.call f p answer :: es =>
    if (env.call f p world).1 = answer then replay env effect (env.call f p world).2 es
    else none
  | world, Ev.out o :: es => replay env effect (effect o world) es

/-- The calls of a sequence of calls and outputs. -/
def calls_of {ο : Type} : List (Ev ο) → List (Fn × Ptr)
  | [] => []
  | Ev.call f p _ :: es => (f, p) :: calls_of es
  | Ev.out _ :: es => calls_of es

/-- The outputs of a sequence of calls and outputs. -/
def outs_of {ο : Type} : List (Ev ο) → List ο
  | [] => []
  | Ev.call _ _ _ :: es => outs_of es
  | Ev.out o :: es => o :: outs_of es

/-- A trace agrees with the environment from the world state `world0`:
replaying its calls and outputs from `world0` ends in its world state, every
call carrying the value that the environment returned, and `calls` and `out`
are the calls and the outputs of that sequence. -/
def Run.sound {σ ο : Type} (env : Env σ) (effect : ο → σ → σ) (world0 : σ) (r : Run σ ο) :
    Prop :=
  replay env effect world0 r.trace = some r.world ∧ r.calls = calls_of r.trace ∧
    r.out = outs_of r.trace

/-- Lines as outputs of the runner. -/
def line_events (debug : Nat) (submission : Ptr) (ls : List Line) : List (Ev (Sink × Line)) :=
  ls.map (fun l => Ev.out (sink debug submission, l))

/-- One pass of the dispatcher loop for dispatcher `d` at index `i` in which
the four calls return the values `v`. -/
def dispatcher_events (w debug : Nat) (acc : Accessors) (submission now : Nat)
    (i : Nat) (d : Ptr) (v : DispVals) : List (Ev (Sink × Line)) :=
  [Ev.call Fn.dispatch_busy d v.busy, Ev.call acc.d_ticks d v.ticks,
   Ev.call acc.d_metrics d v.metrics, Ev.call acc.d_blackholes d v.blackholes] ++
    line_events debug submission (dispatcher_lines now i (v.locals w))

/-- The five calls for server `s` returning the values `v`, and the five
lines sent for it under `label`. -/
def server_events (w debug : Nat) (acc : Accessors) (submission now : Nat)
    (s : Ptr) (label : List Char) (v : ServerVals) : List (Ev (Sink × Line)) :=
  [Ev.call acc.s_ticks s v.ticks, Ev.call acc.s_metrics s v.metrics,
   Ev.call Fn.server_get_queue_len s v.queued, Ev.call acc.s_stalls s v.stalls,
   Ev.call acc.s_dropped s v.dropped] ++
    line_events debug submission (send_server_metrics now label (v.locals w))

/-- The call `f(p)` returning `v`, and the line `name` that reports it. -/
def report_events (w debug : Nat) (submission now : Nat) (name : String) (f : Fn) (p : Ptr)
    (v : Nat) : List (Ev (Sink × Line)) :=
  [Ev.call f p v, Ev.out (sink debug submission, ⟨name.toList, size_t w v, now⟩)]

/-- The sums, in `size_t`, of the values stored for a list of servers. -/
def sum_locals (w : Nat) (vs : List ServerVals) : SrvTotals :=
  { totticks := size_t w (vs.map (fun v => (v.locals w).ticks)).sum,
    totmetrics := size_t w (vs.map (fun v => (v.locals w).metrics)).sum,
    totqueued := size_t w (vs.map (fun v => (v.locals w).queued)).sum,
    totstalls := size_t w (vs.map (fun v => (v.locals w).stalls)).sum,
    totdropped := size_t w (vs.map (fun v => (v.locals w).dropped)).sum }

/-! ## The writer thread (`collector_writer`, lines 281-403) -/

/-- What `collector_writer` prints: the header and one row of the statistics
table (lines 325-369), and the three warnings (lines 384-387, 390, 395). -/
inductive Msg
  | header
  | row (mpsin totin mpsout totout mpsdrop totdrop totqueue cps totconn dps totdisc : Nat)
      (widle wbusy : Nat)
  | queuing (ip : List Char) (port queued : Nat) (percent : Int)
  | dropped (n : Nat)
  | aggr_dropped (n : Nat)
deriving DecidableEq, Repr

/-- A `printf` or `logout` of the writer. -/
def Run.log {σ : Type} (r : Run σ Msg) (m : Msg) : Run σ Msg :=
  { r with out := r.out ++ [m], trace := r.trace ++ [Ev.out m] }

/-- The locals `mpsout`, `totout`, `mpsdrop`, `totdrop` and `totqueue`. -/
structure OutSums where
  mpsout : Nat
  totout : Nat
  mpsdrop : Nat
  totdrop : Nat
  totqueue : Nat
deriving DecidableEq, Repr

/-- The loop over the servers in the statistics block (lines 332-340). -/
def stats_servers {σ : Type} (env : Env σ) (w : Nat) :
    List Ptr → OutSums → Run σ Msg → OutSums × Run σ Msg
  | [], t, r => (t, r)
  | s :: rest, t, r =>
    let r1 := r.call env .server_get_metrics_sub s
    let r2 := r1.call env .server_get_metrics s
    let r3 := r2.call env .server_get_dropped_sub s
    let r4 := r3.call env .server_get_dropped s
    stats_servers env w rest
      { mpsout := size_t w (t.mpsout + size_t w (r.peek env .server_get_metrics_sub s)),
        totout := size_t w (t.totout + size_t w (r1.peek env .server_get_metrics s)),
        mpsdrop := size_t w (t.mpsdrop + size_t w (r2.peek env .server_get_dropped_sub s)),
        totdrop := size_t w (t.totdrop + size_t w (r3.peek env .server_get_dropped s)),
        totqueue := size_t w (t.totqueue + size_t w (r4.peek env .server_get_queue_len s)) }
      (r4.call env .server_get_queue_len s)

/-- The locals `mpsin`, `totin`, `widle` and `wbusy`. -/
structure InSums where
  mpsin : Nat
  totin : Nat
  widle : Nat
  wbusy : Nat
deriving DecidableEq, Repr

/-- The loop over the dispatchers in the statistics block (lines 343-352);
`widle` and `wbusy` are of type `short`. -/
def stats_dispatchers {σ : Type} (env : Env σ) (w : Nat) :
    List Ptr → InSums → Run σ Msg → InSums × Run σ Msg
  | [], t, r => (t, r)
  | d :: rest, t, r =>
    let r1 := r.call env .dispatch_get_metrics_sub d
    let r2 := r1.call env .dispatch_get_metrics d
    stats_dispatchers env w rest
      { mpsin := size_t w (t.mpsin + size_t w (r.peek env .dispatch_get_metrics_sub d)),
        totin := size_t w (t.totin + size_t w (r1.peek env .dispatch_get_metrics d)),
        widle := if r2.peek env .dispatch_busy d ≠ 0 then t.widle else t.widle + 1,
        wbusy := if r2.peek env .dispatch_busy d ≠ 0 then t.wbusy + 1 else t.wbusy }
      (r2.call env .dispatch_busy d)

/-- The locals of `collector_writer` that live across iterations. -/
structure WriterLocals where
  i : Nat
  lastconn : Nat
  lastdisc : Nat
  wk : Working
deriving DecidableEq, Repr

/-- The locals when the loop is entered (lines 284-293). -/
def collector_writer_enter : WriterLocals :=
  { i := 0, lastconn := 0, lastdisc := 0, wk := Working.init }

/-- The statistics block run when `debug & 1` (lines 307-372). -/
def writer_stats {σ : Type} (env : Env σ) (w : Nat) (dispatchers srvs : List Ptr)
    (l : WriterLocals) (r : Run σ Msg) : WriterLocals × Run σ Msg :=
  let r1 := if l.i % 24 = 0 then r.log Msg.header else r
  let ss := stats_servers env w srvs ⟨0, 0, 0, 0, 0⟩ r1
  let sd := stats_dispatchers env w dispatchers ⟨0, 0, 0, 0⟩ ss.2
  let totconn := size_t w (sd.2.peek env .dispatch_get_accepted_connections NULL)
  let r2 := sd.2.call env .dispatch_get_accepted_connections NULL
  let totdisc := size_t w (r2.peek env .dispatch_get_closed_connections NULL)
  let r3 := r2.call env .dispatch_get_closed_connections NULL
  ({ l with lastconn := totconn, lastdisc := totdisc },
   r3.log (Msg.row sd.1.mpsin sd.1.totin ss.1.mpsout ss.1.totout ss.1.mpsdrop ss.1.totdrop
     ss.1.totqueue (size_t_sub w totconn l.lastconn) totconn
     (size_t_sub w totdisc l.lastdisc) totdisc sd.1.widle sd.1.wbusy))

/-- The loop over the servers in the periodic check (lines 377-388): the
queue warning of each server and the sum `totdropped` of
`server_get_dropped`. -/
def check_servers {σ : Type} (env : Env σ) (w : Nat) :
    List Ptr → Nat → Run σ Msg → Nat × Run σ Msg
  | [], totdropped, r => (totdropped, r)
  | s :: rest, totdropped, r =>
    let queued := size_t w (r.peek env .server_get_queue_len s)
    let r1 := r.call env .server_get_queue_len s
    let queuesize := size_t w (r1.peek env .server_get_queue_size s)
    let r2 := r1.call env .server_get_queue_size s
    let dropped := size_t w (r2.peek env .server_get_dropped s)
    let r3 := r2.call env .server_get_dropped s
    check_servers env w rest (size_t w (totdropped + dropped))
      (if env.usage_ge_075 queued queuesize
        then r3.log (Msg.queuing (cstr (env.server_ip s)) (env.server_port s) queued
          (env.usage_percent queued queuesize))
        else r3)

/-- The periodic check of `collector_writer` (lines 376-398) with the working
configuration `srvs`, `aggrs`, `numaggregators`: the new `lastdropped` and
`lastaggrdropped`, and the trace. -/
def collector_writer_check {σ : Type} (env : Env σ) (w : Nat) (g : Globals)
    (srvs : List Ptr) (aggrs numaggregators : Nat) (r : Run σ Msg) : Globals × Run σ Msg :=
  -- totdropped = 0; for (i = 0; srvs[i] != NULL; i++) ...
  let cs := check_servers env w srvs 0 r
  -- if (totdropped - lastdropped > 0) logout(...)
  let r1 := if size_t_sub w cs.1 g.lastdropped > 0
    then cs.2.log (Msg.dropped (size_t_sub w cs.1 g.lastdropped)) else cs.2
  -- lastdropped = totdropped;
  let g1 := { g with lastdropped := cs.1 }
  if numaggregators > 0 then
    -- totdropped = aggregator_get_dropped(aggrs);
    let totdropped := size_t w (r1.peek env .aggregator_get_dropped aggrs)
    let r2 := r1.call env .aggregator_get_dropped aggrs
    -- if (totdropped - lastaggrdropped > 0) logout(...)
    let r3 := if size_t_sub w totdropped g1.lastaggrdropped > 0
      then r2.log (Msg.aggr_dropped (size_t_sub w totdropped g1.lastaggrdropped)) else r2
    -- lastaggrdropped = totdropped;
    ({ g1 with lastaggrdropped := totdropped }, r3)
  else (g1, r1)

/-- What one iteration of the loop of `collector_writer` did. -/
inductive WriterStep (σ : Type)
  | stopped
  | assert_failed
  | ran (r : Run σ Msg)

/-- One iteration of `while (keep_running)` in `collector_writer` (lines
295-401). -/
def collector_writer_iteration {σ : Type} (env : Env σ) (cfg : Config) (w : Nat)
    (g : Globals) (l : WriterLocals) (world : σ) : Globals × WriterLocals × WriterStep σ :=
  if g.keep_running = 0 then (g, l, .stopped)
  else
    let gw := collector_writer_refresh cfg g l.wk
    match gw.2.srvs with
    | none => (gw.1, { l with wk := gw.2 }, .assert_failed)
    | some srvs =>
      let r0 : Run σ Msg := { world := world, calls := [], out := [], fault := false }
      let st := if gw.1.debug &&& 1 ≠ 0
        then writer_stats env w gw.1.dispatchers srvs { l with wk := gw.2 } r0
        else ({ l with wk := gw.2 }, r0)
      -- i++; if (i < collector_interval) continue;
      if st.1.i + 1 < gw.1.collector_interval then
        (gw.1, { st.1 with i := st.1.i + 1 }, .ran st.2)
      else
        let chk := collector_writer_check env w gw.1 srvs gw.2.aggrs gw.2.numaggregators st.2
        (chk.1, { st.1 with i := 0 }, .ran chk.2)

/-- The messages printed by one iteration of the writer. -/
def WriterStep.msgs {σ : Type} : WriterStep σ → List Msg
  | .ran r => r.out
  | _ => []

/-! ## A small concrete environment -/

/-- An environment without state for concrete runs: server `p` has sent
`100 * p` metrics, dropped `p`, stalled 3 times, used 7 ticks and queues 2 of
10; every delta accessor returns 1; server 9 is a file called `file`, the
others are reached at an address; the two bytes `XY` and a NUL follow `ipbuf`.
Every queue is filled 2 of 10, for which the two floating point expressions
of the writer give false and 20. -/
def file_env (file : List Char) : Env Unit :=
  { call := fun f p s =>
      (match f with
        | .server_get_metrics => 100 * p
        | .server_get_dropped => p
        | .server_get_stalls => 3
        | .server_get_ticks => 7
        | .server_get_queue_len => 2
        | .server_get_queue_size => 10
        | .server_get_ticks_sub => 1
        | .server_get_metrics_sub => 1
        | .server_get_stalls_sub => 1
        | .server_get_dropped_sub => 1
        | .dispatch_get_ticks_sub => 1
        | .dispatch_get_metrics_sub => 1
        | .dispatch_get_blackholes_sub => 1
        | .aggregator_get_received_sub => 1
        | .aggregator_get_sent_sub => 1
        | .aggregator_get_dropped_sub => 1
        | _ => 5, s),
    server_send := fun _ _ s => s,
    server_ctype := fun p => if p = 9 then con_type.CON_FILE else con_type.other 3,
    server_ip := fun p => if p = 9 then file else "10.0.0.1".toList,
    server_port := fun p => 2000 + p,
    beyond_ipbuf := "XY".toList,
    usage_ge_075 := fun _ _ => false,
    usage_percent := fun _ _ => 20 }

/-- The environment in which the file server 9 writes to `/tmp/relay.out`. -/
def demo_env : Env Unit := file_env "/tmp/relay.out".toList

/-- The environment in which the file server 9 writes to a file whose name
has 35 characters. -/
def long_file_env : Env Unit := file_env "/var/log/carbon-c-relay/metrics.out".toList

/-- A configuration for concrete runs: cluster `c` has the single server `c`,
and `a` is also the number of aggregators in the set `a`. -/
def demo_cfg : Config :=
  { router_getservers := fun c => some [c], aggregator_numaggregators := fun a => a }

/-- The file-scope state of a relay in `SUBMISSION` mode started with
`collector_interval = 1`, cluster 10 and no aggregators. -/
def demo_start : Globals :=
  (collector_start rmode.SUBMISSION [] 10 0 1 { Globals.init with collector_interval := 1 }).1

/-! # Theorems -/

theorem cstr_no_nul (s : List Char) : NUL ∉ cstr s := by
  intro h
  have := List.mem_takeWhile_imp h
  simp at this

theorem cstr_append_nul (xs ys : List Char) (h : NUL ∉ xs) : cstr (xs ++ NUL :: ys) = xs := by
  induction xs with
  | nil => simp [cstr]
  | cons x xs ih =>
    simp only [List.mem_cons, not_or] at h
    have hx : (x != NUL) = true := by simpa using fun e => h.1 e.symm
    simp only [cstr, List.cons_append, List.takeWhile_cons, hx, if_true]
    exact congrArg _ (ih h.2)

theorem cstr_idem (s : List Char) : cstr (cstr s) = cstr s := by
  induction s with
  | nil => rfl
  | cons x xs ih =>
    by_cases hx : (x != NUL) = true
    · simp only [cstr, List.takeWhile_cons, hx, if_true] at ih ⊢
      exact congrArg _ ih
    · simp [cstr, List.takeWhile_cons, hx]

theorem underscore_dots_append (xs ys : List Char) (h : NUL ∉ xs) :
    underscore_dots (xs ++ NUL :: ys) = some (xs.map underscore ++ NUL :: ys, xs.length) := by
  induction xs with
  | nil => simp [underscore_dots]
  | cons x xs ih =>
    simp only [List.mem_cons, not_or] at h
    have hx : x ≠ NUL := fun e => h.1 e.symm
    simp [underscore_dots, hx, ih h.2]

theorem underscore_dots_none (xs : List Char) (h : NUL ∉ xs) : underscore_dots xs = none := by
  induction xs with
  | nil => rfl
  | cons x xs ih =>
    simp only [List.mem_cons, not_or] at h
    have hx : x ≠ NUL := fun e => h.1 e.symm
    simp [underscore_dots, hx, ih h.2]

theorem underscore_no_dot (xs : List Char) : '.' ∉ xs.map underscore := by
  intro h
  obtain ⟨c, -, hc⟩ := List.mem_map.1 h
  unfold underscore at hc
  split at hc
  · exact absurd hc (by decide)
  · exact ‹¬ c = '.'› hc


theorem strlen_cstr (s : List Char) : strlen (cstr s) = strlen s := by
  simp [strlen, cstr_idem]

theorem prepare_hostname_eq (metric h : List Char)
    (hsz : carbon_relays.length + strlen h + 2 ≤ metric.length) :
    prepare_hostname metric h =
      some ⟨carbon_relays ++ (cstr h).map underscore ++ ['.', NUL]
              ++ metric.drop (strlen h + 16),
            strlen h + 15, metric.length - (strlen h + 15)⟩ := by
  have hcr : carbon_relays.length = 14 := by decide
  rw [hcr] at hsz
  set n := strlen h with hn
  have hlen : (cstr h).length = n := rfl
  have h1 : snprintf metric metric.length (carbon_relays ++ cstr h)
      = carbon_relays ++ (cstr h ++ NUL :: metric.drop (n + 15)) := by
    unfold snprintf poke
    have : metric.length ≠ 0 := by omega
    simp only [this, if_false]
    have ht : (carbon_relays ++ cstr h).take (metric.length - 1) = carbon_relays ++ cstr h := by
      apply List.take_of_length_le
      simp [hcr, hlen]; omega
    rw [ht]
    have ht2 : (carbon_relays ++ cstr h ++ [NUL]).take metric.length
        = carbon_relays ++ cstr h ++ [NUL] := by
      apply List.take_of_length_le
      simp [hcr, hlen]; omega
    rw [ht2]
    have hl : (carbon_relays ++ cstr h ++ [NUL]).length = n + 15 := by
      simp [hcr, hlen]; omega
    rw [hl]
    simp
  have hrest : metric.drop (n + 15) = metric[n + 15] :: metric.drop (n + 16) :=
    List.drop_eq_getElem_cons (by omega)
  have hmaplen : ((cstr h).map underscore).length = n := by simp [hlen]
  unfold prepare_hostname
  simp only [h1, hcr]
  have hd : (carbon_relays ++ (cstr h ++ NUL :: metric.drop (n + 15))).drop 14
      = cstr h ++ NUL :: metric.drop (n + 15) := by
    rw [List.drop_left' hcr]
  have htk : (carbon_relays ++ (cstr h ++ NUL :: metric.drop (n + 15))).take 14
      = carbon_relays := by
    rw [List.take_left' hcr]
  rw [hd, htk, underscore_dots_append _ _ (cstr_no_nul h)]
  simp only [hlen]
  have hL : (carbon_relays ++ ((cstr h).map underscore ++ NUL :: metric.drop (n + 15))).length
      = metric.length := by
    simp [hcr, hlen]; omega
  have hset1 : (carbon_relays ++ ((cstr h).map underscore ++ NUL :: metric.drop (n + 15))).set (14 + n) '.'
      = carbon_relays ++ ((cstr h).map underscore ++ '.' :: metric.drop (n + 15)) := by
    rw [List.set_append_right _ _ (by omega), hcr, List.set_append_right _ _ (by omega)]
    simp [hmaplen]
  have hset2 : (carbon_relays ++ ((cstr h).map underscore ++ '.' :: metric.drop (n + 15))).set (14 + n + 1) NUL
      = carbon_relays ++ ((cstr h).map underscore ++ '.' :: NUL :: metric.drop (n + 16)) := by
    rw [List.set_append_right _ _ (by omega), hcr, List.set_append_right _ _ (by omega), hmaplen]
    have : 14 + n + 1 - 14 - n = 1 := by omega
    rw [this, hrest]; rfl
  rw [hL, if_pos (by omega), hset1]
  have hL2 : (carbon_relays ++ ((cstr h).map underscore ++ '.' :: metric.drop (n + 15))).length
      = metric.length := by
    simp [hcr, hlen]; omega
  rw [hL2, if_pos (by omega), hset2]
  have e1 : 14 + n + 1 = n + 15 := by omega
  simp [e1]

/-- C5: when `strlen("carbon.relays.") + strlen(h) + 2 <= METRIC_BUFSIZ`, the prefix
prepared by `collector_runner` is `"carbon.relays."`, then the hostname with
every `'.'` replaced by `'_'` (other characters and the length unchanged, so
the hostname is a single dot-free path component), then one `'.'`; `m` points
just past it at a NUL, `sizem = METRIC_BUFSIZ - (strlen(h) + 15)`, and both
writes after the loop fall inside the array. -/
theorem prepare_hostname_spec (metric h : List Char)
    (hsz : carbon_relays.length + strlen h + 2 ≤ metric.length) :
    ∃ p, prepare_hostname metric h = some p ∧
      p.metric.take p.m = carbon_relays ++ (cstr h).map underscore ++ ['.'] ∧
      p.metric.get? p.m = some NUL ∧
      ((cstr h).map underscore).length = strlen h ∧
      '.' ∉ (cstr h).map underscore ∧
      (∀ c, c ≠ '.' → underscore c = c) ∧ underscore '.' = '_' ∧
      p.m = strlen h + 15 ∧
      p.sizem = metric.length - (strlen h + 15) ∧
      p.metric.length = metric.length ∧
      p.m < metric.length := by
  have hcr : carbon_relays.length = 14 := by decide
  have hlen : (cstr h).length = strlen h := rfl
  refine ⟨_, prepare_hostname_eq metric h hsz, ?_, ?_, ?_, underscore_no_dot _, ?_, ?_,
    rfl, rfl, ?_, ?_⟩
  · have hl : (carbon_relays ++ (cstr h).map underscore ++ ['.']).length = strlen h + 15 := by
      simp [hcr, hlen]; omega
    show List.take (strlen h + 15) (carbon_relays ++ (cstr h).map underscore ++ ['.', NUL]
      ++ metric.drop (strlen h + 16)) = _
    have e : carbon_relays ++ (cstr h).map underscore ++ ['.', NUL] ++ metric.drop (strlen h + 16)
        = (carbon_relays ++ (cstr h).map underscore ++ ['.']) ++ (NUL :: metric.drop (strlen h + 16)) := by
      simp
    rw [e, List.take_left' hl]
  · have hl : (carbon_relays ++ (cstr h).map underscore ++ ['.']).length = strlen h + 15 := by
      simp [hcr, hlen]; omega
    show List.get? (carbon_relays ++ (cstr h).map underscore ++ ['.', NUL]
      ++ metric.drop (strlen h + 16)) (strlen h + 15) = _
    have e : carbon_relays ++ (cstr h).map underscore ++ ['.', NUL] ++ metric.drop (strlen h + 16)
        = (carbon_relays ++ (cstr h).map underscore ++ ['.']) ++ (NUL :: metric.drop (strlen h + 16)) := by
      simp
    rw [e, List.get?_eq_getElem?, List.getElem?_append_right (by omega), hl]
    simp
  · simp [hlen]
  · intro c hc
    simp [underscore, hc]
  · decide
  · show (carbon_relays ++ (cstr h).map underscore ++ ['.', NUL]
      ++ metric.drop (strlen h + 16)).length = _
    simp [hcr, hlen]; omega
  · show strlen h + 15 < metric.length
    omega

/-- Witness for C5: a 20-byte array and the hostname `a.b`. -/
theorem prepare_hostname_spec_witness :
    (prepare_hostname (List.replicate 20 'x') "a.b".toList).map (fun p => (p.m, p.sizem))
      = some (18, 2) := by
  obtain ⟨p, hp, _, _, _, _, _, _, hm, hs, _, _⟩ :=
    prepare_hostname_spec (List.replicate 20 'x') "a.b".toList (by decide)
  rw [hp, Option.map_some', hm, hs]
  decide

/-! ## Bucket count width -/

theorem windows_needed_le_iff (interval expire k : Nat) (hi : 1 ≤ interval) :
    windows_needed interval expire ≤ k ↔ expire ≤ k * interval := by
  unfold windows_needed
  have hk : (k + 1) * interval = k * interval + interval := by ring
  rw [← Nat.lt_succ_iff, Nat.div_lt_iff_lt_mul (by omega), Nat.succ_eq_add_one, hk]
  omega

/-- C7 as stated fails: with `interval = 1` and `expire = 65535` (both within
the `unsigned short` range, `interval <= expire`) 65535 windows are needed,
which is more than 255 and is changed by storing it in `bucketcnt`. -/
theorem windows_needed_exceeds_uchar :
    ¬ (∀ interval expire : Nat, 1 ≤ interval → interval ≤ expire → expire ≤ USHRT_MAX →
        windows_needed interval expire ≤ UCHAR_MAX ∧
        store_bucketcnt (windows_needed interval expire) = windows_needed interval expire) := by
  intro h
  have := (h 1 65535 (by decide) (by decide) (by decide)).1
  exact absurd this (by decide)

/-- C7 amended: for `1 <= interval <= expire <= 65535` the number of windows
`ceil(expire / interval)` (the least `k` with `expire <= k * interval`) is at
most 255, and is held by `bucketcnt` without truncation, exactly when
`expire <= 255 * interval`; in all cases it is at least 1 and at most
65535. -/
theorem windows_needed_fits_iff (interval expire : Nat)
    (hi : 1 ≤ interval) (hie : interval ≤ expire) (he : expire ≤ USHRT_MAX) :
    (expire ≤ windows_needed interval expire * interval ∧
      ∀ k, expire ≤ k * interval → windows_needed interval expire ≤ k) ∧
    (windows_needed interval expire ≤ UCHAR_MAX ↔ expire ≤ UCHAR_MAX * interval) ∧
    (store_bucketcnt (windows_needed interval expire) = windows_needed interval expire
      ↔ expire ≤ UCHAR_MAX * interval) ∧
    1 ≤ windows_needed interval expire ∧
    windows_needed interval expire ≤ USHRT_MAX := by
  have hfit := windows_needed_le_iff interval expire UCHAR_MAX hi
  refine ⟨⟨(windows_needed_le_iff interval expire _ hi).1 le_rfl,
    fun k hk => (windows_needed_le_iff interval expire k hi).2 hk⟩, hfit, ?_, ?_, ?_⟩
  · rw [← hfit]
    unfold store_bucketcnt UCHAR_MAX
    constructor
    · intro h
      have := Nat.mod_lt (windows_needed interval expire) (show 0 < 255 + 1 by decide)
      omega
    · intro h
      exact Nat.mod_eq_of_lt (by omega)
  · by_contra h
    have h0 : windows_needed interval expire ≤ 0 := by omega
    have := (windows_needed_le_iff interval expire 0 hi).1 h0
    omega
  · apply (windows_needed_le_iff interval expire _ hi).2
    calc expire ≤ USHRT_MAX := he
      _ = USHRT_MAX * 1 := by simp
      _ ≤ USHRT_MAX * interval := Nat.mul_le_mul_left _ hi

/-- Witness for the amended C7: `interval = 60`, `expire = 120`. -/
theorem windows_needed_fits_iff_witness :
    windows_needed 60 120 ≤ UCHAR_MAX ↔ 120 ≤ UCHAR_MAX * 60 :=
  (windows_needed_fits_iff 60 120 (by decide) (by decide) (by decide)).2.1

/-! ## The reload protocol -/

theorem run_events_snoc (cfg : Config) (s : Globals × Working) (es : List Event) (e : Event) :
    run_events cfg s (es ++ [e]) = step cfg (run_events cfg s es) e := by
  simp [run_events, List.foldl_append]

theorem run_events_append (cfg : Config) (s : Globals × Working) (es es' : List Event) :
    run_events cfg s (es ++ es') = run_events cfg (run_events cfg s es) es' := by
  simp [run_events, List.foldl_append]

theorem last_scheduled_snoc_schedule (es : List Event) (c a : Ptr) :
    last_scheduled (es ++ [.schedulereload c a]) = some (c, a) := by
  induction es with
  | nil => rfl
  | cons x xs ih =>
    show (match last_scheduled (xs ++ [Event.schedulereload c a]) with
      | some ca => some ca
      | none => _) = _
    rw [ih]

theorem last_scheduled_snoc_refresh (es : List Event) :
    last_scheduled (es ++ [.refresh]) = last_scheduled es := by
  induction es with
  | nil => rfl
  | cons x xs ih =>
    show (match last_scheduled (xs ++ [Event.refresh]) with
      | some ca => some ca
      | none => _) = _
    rw [ih]
    rfl

/-- Invariant of the protocol: the pending pair is the most recently scheduled
one, and whenever no refresh is pending the working configuration is the one
built from that pair. -/
theorem run_events_last (cfg : Config) (s : Globals × Working) (es : List Event) (c a : Ptr)
    (h : last_scheduled es = some (c, a)) :
    (run_events cfg s es).1.pending_clusters = c ∧
    (run_events cfg s es).1.pending_aggrs = a ∧
    ((run_events cfg s es).1.cluster_refresh_pending = 0 →
      (run_events cfg s es).2 =
        { srvs := cfg.router_getservers c, aggrs := a,
          numaggregators := cfg.aggregator_numaggregators a }) := by
  induction es using List.reverseRecOn generalizing c a with
  | nil => simp [last_scheduled] at h
  | append_singleton es e ih =>
    rw [run_events_snoc]
    cases e with
    | schedulereload c' a' =>
      rw [last_scheduled_snoc_schedule] at h
      simp only [Option.some.injEq, Prod.mk.injEq] at h
      obtain ⟨rfl, rfl⟩ := h
      simp [step, collector_schedulereload]
    | refresh =>
      rw [last_scheduled_snoc_refresh] at h
      obtain ⟨h1, h2, h3⟩ := ih c a h
      simp only [step, collector_runner_refresh]
      by_cases hp : (run_events cfg s es).1.cluster_refresh_pending = 0
      · simp only [hp, ne_eq, not_true_eq_false, if_false]
        exact ⟨h1, h2, fun _ => h3 hp⟩
      · simp only [hp, ne_eq, not_false_eq_true, if_true, h1, h2]
        simp

theorem pending_stays (cfg : Config) (s : Globals × Working) (es : List Event)
    (hp : s.1.cluster_refresh_pending ≠ 0) (hr : Event.refresh ∉ es) :
    (run_events cfg s es).1.cluster_refresh_pending ≠ 0 := by
  induction es generalizing s with
  | nil => simpa [run_events] using hp
  | cons e es ih =>
    simp only [List.mem_cons, not_or] at hr
    have : run_events cfg s (e :: es) = run_events cfg (step cfg s e) es := rfl
    rw [this]
    apply ih _ _ hr.2
    cases e with
    | schedulereload c a => simp [step, collector_schedulereload]
    | refresh => exact absurd rfl hr.1

/-- C1: with `collector_schedulereload` and the refresh block as atomic steps,
from the initial state: right after `collector_schedulereload(c, a)`
`collector_reloadcomplete()` is false; it is true again only once a refresh
block has run afterwards; and in every reachable state in which it is true,
the working aggregator set (and server list and aggregator count) is the one
of the most recent `collector_schedulereload` call. -/
theorem reload_protocol (cfg : Config) (es : List Event) :
    (∀ c a, collector_reloadcomplete
        (run_events cfg (Globals.init, Working.init) (es ++ [.schedulereload c a])).1 = false) ∧
    (∀ c a es', collector_reloadcomplete
        (run_events cfg (Globals.init, Working.init) (es ++ .schedulereload c a :: es')).1 = true →
        Event.refresh ∈ es') ∧
    (∀ c a, last_scheduled es = some (c, a) →
      collector_reloadcomplete (run_events cfg (Globals.init, Working.init) es).1 = true →
      (run_events cfg (Globals.init, Working.init) es).2.aggrs = a ∧
      (run_events cfg (Globals.init, Working.init) es).2.srvs = cfg.router_getservers c ∧
      (run_events cfg (Globals.init, Working.init) es).2.numaggregators
        = cfg.aggregator_numaggregators a) := by
  refine ⟨?_, ?_, ?_⟩
  · intro c a
    rw [run_events_snoc]
    simp [step, collector_schedulereload, collector_reloadcomplete]
  · intro c a es' h
    by_contra hr
    have e : es ++ Event.schedulereload c a :: es' = (es ++ [Event.schedulereload c a]) ++ es' := by
      simp
    rw [e, run_events_append, run_events_snoc] at h
    have := pending_stays cfg
      (step cfg (run_events cfg (Globals.init, Working.init) es) (Event.schedulereload c a)) es'
      (by simp [step, collector_schedulereload]) hr
    simp only [collector_reloadcomplete, beq_iff_eq] at h
    exact this h
  · intro c a hl hc
    have hp : (run_events cfg (Globals.init, Working.init) es).1.cluster_refresh_pending = 0 := by
      simpa [collector_reloadcomplete] using hc
    have := (run_events_last cfg _ es c a hl).2.2 hp
    rw [this]
    exact ⟨rfl, rfl, rfl⟩

/-- Witness for C1: two reloads are scheduled before one refresh; the second
one is in force afterwards. -/
theorem reload_protocol_witness :
    (run_events ⟨fun c => some [c], fun a => a⟩ (Globals.init, Working.init)
      [.schedulereload 1 2, .schedulereload 3 4, .refresh]).2.aggrs = 4 :=
  ((reload_protocol ⟨fun c => some [c], fun a => a⟩
      [.schedulereload 1 2, .schedulereload 3 4, .refresh]).2.2 3 4
      (by decide) (by decide)).1

/-! ## Traces -/

section traces
variable {σ ο : Type} (env : Env σ)

@[simp] theorem call_calls (f : Fn) (p : Ptr) (r : Run σ ο) :
    (r.call env f p).calls = r.calls ++ [(f, p)] := rfl

@[simp] theorem call_out (f : Fn) (p : Ptr) (r : Run σ ο) : (r.call env f p).out = r.out := rfl

@[simp] theorem call_fault (f : Fn) (p : Ptr) (r : Run σ ο) :
    (r.call env f p).fault = r.fault := rfl

@[simp] theorem call_trace (f : Fn) (p : Ptr) (r : Run σ ο) :
    (r.call env f p).trace = r.trace ++ [Ev.call f p (r.peek env f p)] := rfl

@[simp] theorem send_calls (debug sub : Nat) (r : Run σ (Sink × Line)) (l : Line) :
    (r.send env debug sub l).calls = r.calls := by
  unfold Run.send; split <;> rfl

@[simp] theorem send_fault (debug sub : Nat) (r : Run σ (Sink × Line)) (l : Line) :
    (r.send env debug sub l).fault = r.fault := by
  unfold Run.send; split <;> rfl

@[simp] theorem send_out (debug sub : Nat) (r : Run σ (Sink × Line)) (l : Line) :
    (r.send env debug sub l).out = r.out ++ [(sink debug sub, l)] := by
  unfold Run.send sink; split <;> rfl

@[simp] theorem send_trace (debug sub : Nat) (r : Run σ (Sink × Line)) (l : Line) :
    (r.send env debug sub l).trace = r.trace ++ [Ev.out (sink debug sub, l)] := by
  unfold Run.send sink; split <;> rfl

theorem send_world (debug sub : Nat) (r : Run σ (Sink × Line)) (l : Line) :
    (r.send env debug sub l).world = send_effect env (sink debug sub, l) r.world := by
  unfold Run.send sink send_effect; split <;> rfl

@[simp] theorem sends_calls (debug sub : Nat) (r : Run σ (Sink × Line)) (ls : List Line) :
    (r.sends env debug sub ls).calls = r.calls := by
  induction ls generalizing r with
  | nil => rfl
  | cons l ls ih => simp only [Run.sends, List.foldl_cons] at ih ⊢; rw [ih]; simp

@[simp] theorem sends_fault (debug sub : Nat) (r : Run σ (Sink × Line)) (ls : List Line) :
    (r.sends env debug sub ls).fault = r.fault := by
  induction ls generalizing r with
  | nil => rfl
  | cons l ls ih => simp only [Run.sends, List.foldl_cons] at ih ⊢; rw [ih]; simp

@[simp] theorem sends_out (debug sub : Nat) (r : Run σ (Sink × Line)) (ls : List Line) :
    (r.sends env debug sub ls).out = r.out ++ ls.map (fun l => (sink debug sub, l)) := by
  induction ls generalizing r with
  | nil => simp [Run.sends]
  | cons l ls ih => simp only [Run.sends, List.foldl_cons] at ih ⊢; rw [ih]; simp

@[simp] theorem sends_trace (debug sub : Nat) (r : Run σ (Sink × Line)) (ls : List Line) :
    (r.sends env debug sub ls).trace = r.trace ++ line_events debug sub ls := by
  induction ls generalizing r with
  | nil => simp [Run.sends, line_events]
  | cons l ls ih =>
    simp only [Run.sends, List.foldl_cons, line_events] at ih ⊢; rw [ih]; simp

/-- The calls made by the five reads for one server. -/
theorem server_read_calls (acc : Accessors) (s : Ptr) (r : Run σ ο) :
    (server_read env acc s r).2.calls = r.calls ++
      [(acc.s_ticks, s), (acc.s_metrics, s), (Fn.server_get_queue_len, s),
       (acc.s_stalls, s), (acc.s_dropped, s)] := by
  simp [server_read]

@[simp] theorem server_read_out (acc : Accessors) (s : Ptr) (r : Run σ ο) :
    (server_read env acc s r).2.out = r.out := rfl

@[simp] theorem server_read_fault (acc : Accessors) (s : Ptr) (r : Run σ ο) :
    (server_read env acc s r).2.fault = r.fault := rfl

/-- The five reads for one server in the trace: each call carries the value
that the read hands on. -/
theorem server_read_trace (acc : Accessors) (s : Ptr) (r : Run σ ο) :
    (server_read env acc s r).2.trace = r.trace ++
      [Ev.call acc.s_ticks s (server_read env acc s r).1.ticks,
       Ev.call acc.s_metrics s (server_read env acc s r).1.metrics,
       Ev.call Fn.server_get_queue_len s (server_read env acc s r).1.queued,
       Ev.call acc.s_stalls s (server_read env acc s r).1.stalls,
       Ev.call acc.s_dropped s (server_read env acc s r).1.dropped] := by
  simp [server_read]

theorem dispatcher_read_calls (acc : Accessors) (d : Ptr) (r : Run σ ο) :
    (dispatcher_read env acc d r).2.calls = r.calls ++
      [(Fn.dispatch_busy, d), (acc.d_ticks, d), (acc.d_metrics, d), (acc.d_blackholes, d)] := by
  simp [dispatcher_read]

@[simp] theorem dispatcher_read_out (acc : Accessors) (d : Ptr) (r : Run σ ο) :
    (dispatcher_read env acc d r).2.out = r.out := rfl

@[simp] theorem dispatcher_read_fault (acc : Accessors) (d : Ptr) (r : Run σ ο) :
    (dispatcher_read env acc d r).2.fault = r.fault := rfl

theorem dispatcher_read_trace (acc : Accessors) (d : Ptr) (r : Run σ ο) :
    (dispatcher_read env acc d r).2.trace = r.trace ++
      [Ev.call Fn.dispatch_busy d (dispatcher_read env acc d r).1.busy,
       Ev.call acc.d_ticks d (dispatcher_read env acc d r).1.ticks,
       Ev.call acc.d_metrics d (dispatcher_read env acc d r).1.metrics,
       Ev.call acc.d_blackholes d (dispatcher_read env acc d r).1.blackholes] := by
  simp [dispatcher_read]

@[simp] theorem report_calls (w debug sub now : Nat) (r : Run σ (Sink × Line)) (name : String)
    (f : Fn) (p : Ptr) :
    (r.report env w debug sub now name f p).calls = r.calls ++ [(f, p)] := by
  simp [Run.report]

@[simp] theorem report_fault (w debug sub now : Nat) (r : Run σ (Sink × Line)) (name : String)
    (f : Fn) (p : Ptr) :
    (r.report env w debug sub now name f p).fault = r.fault := by
  simp [Run.report]

@[simp] theorem report_out (w debug sub now : Nat) (r : Run σ (Sink × Line)) (name : String)
    (f : Fn) (p : Ptr) :
    (r.report env w debug sub now name f p).out = r.out ++
      [(sink debug sub, ⟨name.toList, size_t w (r.peek env f p), now⟩)] := by
  simp [Run.report]

@[simp] theorem report_trace (w debug sub now : Nat) (r : Run σ (Sink × Line)) (name : String)
    (f : Fn) (p : Ptr) :
    (r.report env w debug sub now name f p).trace = r.trace ++
      report_events w debug sub now name f p (r.peek env f p) := by
  simp [Run.report, report_events]

/-! ### Traces that agree with the environment -/

theorem replay_append (effect : ο → σ → σ) (world : σ) (t1 t2 : List (Ev ο)) :
    replay env effect world (t1 ++ t2) =
      (replay env effect world t1).bind (fun world1 => replay env effect world1 t2) := by
  induction t1 generalizing world with
  | nil => rfl
  | cons e es ih =>
    cases e with
    | call f p v =>
      simp only [List.cons_append, replay]
      split
      · exact ih _
      · rfl
    | out o =>
      simp only [List.cons_append, replay]
      exact ih _

theorem calls_of_append (t1 t2 : List (Ev ο)) :
    calls_of (t1 ++ t2) = calls_of t1 ++ calls_of t2 := by
  induction t1 with
  | nil => rfl
  | cons e es ih => cases e <;> simp [calls_of, ih]

theorem outs_of_append (t1 t2 : List (Ev ο)) :
    outs_of (t1 ++ t2) = outs_of t1 ++ outs_of t2 := by
  induction t1 with
  | nil => rfl
  | cons e es ih => cases e <;> simp [outs_of, ih]

theorem sound_call (effect : ο → σ → σ) (world0 : σ) (f : Fn) (p : Ptr) (r : Run σ ο)
    (h : r.sound env effect world0) : (r.call env f p).sound env effect world0 := by
  obtain ⟨h1, h2, h3⟩ := h
  refine ⟨?_, ?_, ?_⟩
  · rw [call_trace, replay_append, h1]
    simp [replay, Run.peek, Run.call]
  · rw [call_trace, calls_of_append, call_calls, h2]; rfl
  · rw [call_trace, outs_of_append, call_out, h3]; simp [outs_of]

theorem sound_send (world0 : σ) (debug sub : Nat) (r : Run σ (Sink × Line)) (l : Line)
    (h : r.sound env (send_effect env) world0) :
    (r.send env debug sub l).sound env (send_effect env) world0 := by
  obtain ⟨h1, h2, h3⟩ := h
  refine ⟨?_, ?_, ?_⟩
  · rw [send_trace, replay_append, h1, send_world]
    simp [replay]
  · rw [send_trace, calls_of_append, send_calls, h2]; simp [calls_of]
  · rw [send_trace, outs_of_append, send_out, h3]; rfl

theorem sound_sends (world0 : σ) (debug sub : Nat) (r : Run σ (Sink × Line)) (ls : List Line)
    (h : r.sound env (send_effect env) world0) :
    (r.sends env debug sub ls).sound env (send_effect env) world0 := by
  induction ls generalizing r with
  | nil => exact h
  | cons l ls ih =>
    simp only [Run.sends, List.foldl_cons] at ih ⊢
    exact ih _ (sound_send env world0 debug sub r l h)

theorem sound_server_read (effect : ο → σ → σ) (world0 : σ) (acc : Accessors) (s : Ptr)
    (r : Run σ ο) (h : r.sound env effect world0) :
    (server_read env acc s r).2.sound env effect world0 := by
  unfold server_read
  exact sound_call env _ _ _ _ _ (sound_call env _ _ _ _ _ (sound_call env _ _ _ _ _
    (sound_call env _ _ _ _ _ (sound_call env _ _ _ _ _ h))))

theorem sound_dispatcher_read (effect : ο → σ → σ) (world0 : σ) (acc : Accessors) (d : Ptr)
    (r : Run σ ο) (h : r.sound env effect world0) :
    (dispatcher_read env acc d r).2.sound env effect world0 := by
  unfold dispatcher_read
  exact sound_call env _ _ _ _ _ (sound_call env _ _ _ _ _ (sound_call env _ _ _ _ _
    (sound_call env _ _ _ _ _ h)))

theorem sound_report (world0 : σ) (w debug sub now : Nat) (r : Run σ (Sink × Line))
    (name : String) (f : Fn) (p : Ptr) (h : r.sound env (send_effect env) world0) :
    (r.report env w debug sub now name f p).sound env (send_effect env) world0 := by
  unfold Run.report
  exact sound_send env _ _ _ _ _ (sound_call env _ _ _ _ _ h)

end traces

/-! ## Character arrays -/

theorem poke_length (buf xs : List Char) (h : xs.length ≤ buf.length) :
    (poke buf xs).length = buf.length := by
  simp [poke, List.length_take]; omega

theorem poke_eq (buf xs : List Char) (h : xs.length ≤ buf.length) :
    poke buf xs = xs ++ buf.drop xs.length := by
  simp [poke, List.take_of_length_le h]

theorem snprintf_length (buf text : List Char) :
    (snprintf buf buf.length text).length = buf.length := by
  unfold snprintf
  split
  · rfl
  · apply poke_length
    simp [List.length_take]; omega

theorem snprintf_nul (buf text : List Char) (h : 0 < buf.length) :
    NUL ∈ snprintf buf buf.length text := by
  unfold snprintf
  rw [if_neg (by omega), poke_eq _ _ (by simp [List.length_take]; omega)]
  simp

theorem strncpy_length (buf src : List Char) :
    (strncpy buf src buf.length).length = buf.length := by
  unfold strncpy
  apply poke_length
  simp [List.length_take, strlen]; omega

theorem strncpy_nul (buf src : List Char) (h : strlen src < buf.length) :
    NUL ∈ strncpy buf src buf.length := by
  unfold strncpy
  rw [poke_eq _ _ (by simp [List.length_take, strlen]; omega)]
  have : buf.length - strlen src ≠ 0 := by omega
  apply List.mem_append_left
  apply List.mem_append_right
  simp [List.mem_replicate, this]

/-- A long source leaves the array without any NUL. -/
theorem strncpy_no_nul (buf src : List Char) (h : buf.length ≤ strlen src) :
    NUL ∉ strncpy buf src buf.length := by
  unfold strncpy
  have h0 : buf.length - strlen src = 0 := by omega
  rw [h0, List.replicate_zero, List.append_nil]
  have hl : ((cstr src).take buf.length).length = buf.length := by
    simp [List.length_take]; exact h
  rw [poke_eq _ _ (by omega), hl, List.drop_length, List.append_nil]
  intro hm
  exact cstr_no_nul src (List.mem_of_mem_take hm)

theorem split_at_nul (b : List Char) (h : NUL ∈ b) :
    b = cstr b ++ NUL :: b.drop (strlen b + 1) := by
  induction b with
  | nil => simp at h
  | cons x xs ih =>
    by_cases hx : x = NUL
    · subst hx
      simp [cstr, strlen]
    · have hx2 : (x != NUL) = true := by simpa using hx
      have hin : NUL ∈ xs := by
        rcases List.mem_cons.1 h with h | h
        · exact absurd h.symm hx
        · exact h
      have := ih hin
      simp only [cstr, strlen, List.takeWhile_cons, hx2, if_true, List.length_cons,
        List.drop_succ_cons, List.cons_append] at this ⊢
      exact congrArg _ this

/-- The scan of a NUL-terminated array: it stays inside the array, keeps its
length, replaces the dots of the string and nothing else. -/
theorem underscore_dots_of_nul (b : List Char) (h : NUL ∈ b) :
    ∃ b', underscore_dots b = some (b', strlen b) ∧ b'.length = b.length ∧
      cstr b' = (cstr b).map underscore ∧ NUL ∈ b' := by
  have hs := split_at_nul b h
  refine ⟨(cstr b).map underscore ++ NUL :: b.drop (strlen b + 1), ?_, ?_, ?_, by simp⟩
  · conv_lhs => rw [hs]
    rw [underscore_dots_append _ _ (cstr_no_nul b)]
    rfl
  · conv_rhs => rw [hs]
    simp
  · apply cstr_append_nul
    intro hm
    obtain ⟨c, hc, hcu⟩ := List.mem_map.1 hm
    have hne : c ≠ NUL := fun e => cstr_no_nul b (e ▸ hc)
    unfold underscore at hcu
    split at hcu
    · exact absurd hcu (by decide)
    · exact hne hcu

theorem strlen_lt_of_nul (b : List Char) (h : NUL ∈ b) : strlen b < b.length := by
  have hs := congrArg List.length (split_at_nul b h)
  simp only [List.length_append, List.length_cons] at hs
  unfold strlen
  omega

theorem server_label_length {σ : Type} (env : Env σ) (ipbuf : List Char) (s : Ptr) :
    (server_label env ipbuf s).length = ipbuf.length := by
  unfold server_label
  split
  · exact strncpy_length _ _
  · exact snprintf_length _ _

/-- The label of a server that is not a file, or is a file whose name is
shorter than the array, is scanned inside the array; it has at most 31
characters and no dot. -/
theorem server_label_scan {σ : Type} (env : Env σ) (ipbuf : List Char) (s : Ptr)
    (hlen : ipbuf.length = 32)
    (hfile : env.server_ctype s = con_type.CON_FILE → strlen (env.server_ip s) < 32) :
    ∃ b', underscore_dots (server_label env ipbuf s)
        = some (b', strlen (server_label env ipbuf s)) ∧
      b'.length = 32 ∧ (cstr b').length ≤ 31 ∧ '.' ∉ cstr b' := by
  have hn : NUL ∈ server_label env ipbuf s := by
    unfold server_label
    split
    · next hc => exact strncpy_nul _ _ (by rw [hlen]; exact hfile hc)
    · exact snprintf_nul _ _ (by omega)
  obtain ⟨b', hb, hl, hc, hnul⟩ := underscore_dots_of_nul _ hn
  refine ⟨b', hb, ?_, ?_, ?_⟩
  · rw [hl, server_label_length, hlen]
  · have := strlen_lt_of_nul b' hnul
    rw [hl, server_label_length, hlen] at this
    unfold strlen at this
    omega
  · rw [hc]
    exact underscore_no_dot _

theorem foldl_size_t (w : Nat) (l : List Nat) (a : Nat) (ha : size_t w a = a) :
    l.foldl (fun t v => size_t w (t + v)) a = size_t w (a + l.sum) := by
  induction l generalizing a with
  | nil => simpa using ha.symm
  | cons x xs ih =>
    simp only [List.foldl_cons, List.sum_cons]
    rw [ih _ (by simp [size_t])]
    simp only [size_t]
    rw [Nat.add_mod, Nat.mod_mod, ← Nat.add_mod, Nat.add_assoc]

theorem underscore_dots_some_nul (b : List Char) (r : List Char × Nat)
    (h : underscore_dots b = some r) : NUL ∈ b := by
  by_contra hn
  rw [underscore_dots_none b hn] at h
  exact Option.noConfusion h

/-- A label that was scanned inside the 32-byte array has at most 31
characters and no dot. -/
theorem scanned_label {σ : Type} (env : Env σ) (ipbuf : List Char) (s : Ptr)
    (scanned : List Char × Nat) (hlen : ipbuf.length = 32)
    (h : underscore_dots (server_label env ipbuf s) = some scanned) :
    scanned.1.length = 32 ∧ (cstr scanned.1).length ≤ 31 ∧ '.' ∉ cstr scanned.1 := by
  obtain ⟨b', hb, hl, hc, hnul⟩ :=
    underscore_dots_of_nul _ (underscore_dots_some_nul _ _ h)
  rw [hb] at h
  obtain rfl : (b', strlen (server_label env ipbuf s)) = scanned := Option.some.inj h
  have h32 : b'.length = 32 := by rw [hl, server_label_length, hlen]
  refine ⟨h32, ?_, ?_⟩
  · have := strlen_lt_of_nul b' hnul
    rw [h32] at this
    unfold strlen at this
    show (cstr b').length ≤ 31
    omega
  · show '.' ∉ cstr b'
    rw [hc]
    exact underscore_no_dot _

/-- For a `CON_FILE` server whose name does not fit, `strncpy` leaves no NUL
in `ipbuf` and the scan runs off the end of the array. -/
theorem server_label_overrun {σ : Type} (env : Env σ) (ipbuf : List Char) (s : Ptr)
    (hc : env.server_ctype s = con_type.CON_FILE)
    (hlen : ipbuf.length ≤ strlen (env.server_ip s)) :
    NUL ∉ server_label env ipbuf s ∧ underscore_dots (server_label env ipbuf s) = none := by
  have h : NUL ∉ server_label env ipbuf s := by
    unfold server_label
    rw [if_pos hc]
    exact strncpy_no_nul _ _ hlen
  exact ⟨h, underscore_dots_none _ h⟩

section server_loop
variable {σ : Type} (env : Env σ) (w debug : Nat) (acc : Accessors) (sub now : Nat)

@[simp] theorem server_pass_fault (s : Ptr) (st : SrvState σ) (ipbuf label : List Char) :
    (server_pass env w debug acc sub now s st ipbuf label).run.fault = st.run.fault := by
  simp [server_pass]

@[simp] theorem server_pass_ipbuf (s : Ptr) (st : SrvState σ) (ipbuf label : List Char) :
    (server_pass env w debug acc sub now s st ipbuf label).ipbuf = ipbuf := rfl

theorem server_pass_trace (s : Ptr) (st : SrvState σ) (ipbuf label : List Char) :
    (server_pass env w debug acc sub now s st ipbuf label).run.trace = st.run.trace ++
      server_events w debug acc sub now s label (server_read env acc s st.run).1 := by
  simp [server_pass, server_read_trace, server_events]

theorem server_pass_calls (s : Ptr) (st : SrvState σ) (ipbuf label : List Char) :
    (server_pass env w debug acc sub now s st ipbuf label).run.calls = st.run.calls ++
      server_calls acc s := by
  simp [server_pass, server_read_calls, server_calls]

theorem sound_server_pass (world0 : σ) (s : Ptr) (st : SrvState σ) (ipbuf label : List Char)
    (h : st.run.sound env (send_effect env) world0) :
    (server_pass env w debug acc sub now s st ipbuf label).run.sound env (send_effect env)
      world0 := by
  unfold server_pass
  exact sound_sends env _ _ _ _ _ (sound_server_read env _ _ _ _ _ h)

/-- The scan of the label of `s` leaves `ipbuf` exactly when `s` is a file
whose name has 32 or more characters. -/
theorem scan_overrun_iff (ipbuf : List Char) (s : Ptr) (hlen : ipbuf.length = 32) :
    underscore_dots (server_label env ipbuf s) = none ↔
      env.server_ctype s = con_type.CON_FILE ∧ 32 ≤ strlen (env.server_ip s) := by
  constructor
  · intro h
    by_contra hn
    have hfile : env.server_ctype s = con_type.CON_FILE → strlen (env.server_ip s) < 32 := by
      intro hc
      by_contra hl
      exact hn ⟨hc, by omega⟩
    obtain ⟨b', hb, -⟩ := server_label_scan env ipbuf s hlen hfile
    rw [hb] at h
    exact Option.noConfusion h
  · rintro ⟨hc, hl⟩
    exact (server_label_overrun env ipbuf s hc (by omega)).2

/-- The server loop marks its trace exactly when some server of the list is a
file whose name has 32 or more characters. -/
theorem server_loop_fault (srvs : List Ptr) (st : SrvState σ) (hlen : st.ipbuf.length = 32) :
    (server_loop env w debug acc sub now srvs st).run.fault = true ↔
      st.run.fault = true ∨
      ∃ s ∈ srvs, env.server_ctype s = con_type.CON_FILE ∧ 32 ≤ strlen (env.server_ip s) := by
  induction srvs generalizing st with
  | nil => simp [server_loop]
  | cons s rest ih =>
    cases hscan : underscore_dots (server_label env st.ipbuf s) with
    | none =>
      have hs := (scan_overrun_iff env st.ipbuf s hlen).1 hscan
      rw [server_loop, hscan]
      rw [ih _ (by simp [server_label_length, hlen])]
      simp only [server_pass_fault, true_or, true_iff]
      exact Or.inr ⟨s, List.mem_cons_self _ _, hs⟩
    | some scanned =>
      have hs : ¬ (env.server_ctype s = con_type.CON_FILE ∧ 32 ≤ strlen (env.server_ip s)) := by
        intro h
        rw [(scan_overrun_iff env st.ipbuf s hlen).2 h] at hscan
        exact Option.noConfusion hscan
      rw [server_loop, hscan]
      rw [ih _ (by simpa using (scanned_label env st.ipbuf s scanned hlen hscan).1)]
      simp only [server_pass_fault, List.mem_cons, exists_eq_or_imp, hs, false_or]

theorem sound_server_loop (world0 : σ) (srvs : List Ptr) (st : SrvState σ)
    (h : st.run.sound env (send_effect env) world0) :
    (server_loop env w debug acc sub now srvs st).run.sound env (send_effect env) world0 := by
  induction srvs generalizing st with
  | nil => exact h
  | cons s rest ih =>
    rw [server_loop]
    split
    · exact ih _ (sound_server_pass env w debug acc sub now world0 s _ _ _ h)
    · exact ih _ (sound_server_pass env w debug acc sub now world0 s _ _ _ h)

/-- The server loop: for every server of the list, in order, the five calls
and the five lines of that server under some label; the totals accumulate the
values of these lines. -/
theorem server_loop_spec (srvs : List Ptr) (st : SrvState σ) :
    ∃ lv : List (List Char × ServerVals), lv.length = srvs.length ∧
      (server_loop env w debug acc sub now srvs st).run.trace = st.run.trace ++
        (List.zip srvs lv).flatMap
          (fun x => server_events w debug acc sub now x.1 x.2.1 x.2.2) ∧
      (server_loop env w debug acc sub now srvs st).run.calls = st.run.calls ++
        srvs.flatMap (server_calls acc) ∧
      (server_loop env w debug acc sub now srvs st).tot.totticks =
        (lv.map (fun x => (x.2.locals w).ticks)).foldl (fun t v => size_t w (t + v))
          st.tot.totticks ∧
      (server_loop env w debug acc sub now srvs st).tot.totmetrics =
        (lv.map (fun x => (x.2.locals w).metrics)).foldl (fun t v => size_t w (t + v))
          st.tot.totmetrics ∧
      (server_loop env w debug acc sub now srvs st).tot.totqueued =
        (lv.map (fun x => (x.2.locals w).queued)).foldl (fun t v => size_t w (t + v))
          st.tot.totqueued ∧
      (server_loop env w debug acc sub now srvs st).tot.totstalls =
        (lv.map (fun x => (x.2.locals w).stalls)).foldl (fun t v => size_t w (t + v))
          st.tot.totstalls ∧
      (server_loop env w debug acc sub now srvs st).tot.totdropped =
        (lv.map (fun x => (x.2.locals w).dropped)).foldl (fun t v => size_t w (t + v))
          st.tot.totdropped := by
  induction srvs generalizing st with
  | nil => exact ⟨[], rfl, by simp [server_loop], by simp [server_loop], rfl, rfl, rfl, rfl, rfl⟩
  | cons s rest ih =>
    have key : ∀ (st1 : SrvState σ) (ipbuf label : List Char),
        st1.run.trace = st.run.trace → st1.run.calls = st.run.calls →
        st1.run.world = st.run.world → st1.tot = st.tot →
        server_loop env w debug acc sub now (s :: rest) st =
          server_loop env w debug acc sub now rest
            (server_pass env w debug acc sub now s st1 ipbuf label) →
        ∃ lv : List (List Char × ServerVals), lv.length = (s :: rest).length ∧
          (server_loop env w debug acc sub now (s :: rest) st).run.trace = st.run.trace ++
            (List.zip (s :: rest) lv).flatMap
              (fun x => server_events w debug acc sub now x.1 x.2.1 x.2.2) ∧
          (server_loop env w debug acc sub now (s :: rest) st).run.calls = st.run.calls ++
            (s :: rest).flatMap (server_calls acc) ∧
          (server_loop env w debug acc sub now (s :: rest) st).tot.totticks =
            (lv.map (fun x => (x.2.locals w).ticks)).foldl (fun t v => size_t w (t + v))
              st.tot.totticks ∧
          (server_loop env w debug acc sub now (s :: rest) st).tot.totmetrics =
            (lv.map (fun x => (x.2.locals w).metrics)).foldl (fun t v => size_t w (t + v))
              st.tot.totmetrics ∧
          (server_loop env w debug acc sub now (s :: rest) st).tot.totqueued =
            (lv.map (fun x => (x.2.locals w).queued)).foldl (fun t v => size_t w (t + v))
              st.tot.totqueued ∧
          (server_loop env w debug acc sub now (s :: rest) st).tot.totstalls =
            (lv.map (fun x => (x.2.locals w).stalls)).foldl (fun t v => size_t w (t + v))
              st.tot.totstalls ∧
          (server_loop env w debug acc sub now (s :: rest) st).tot.totdropped =
            (lv.map (fun x => (x.2.locals w).dropped)).foldl (fun t v => size_t w (t + v))
              st.tot.totdropped := by
      intro st1 ipbuf label htr hca hwo hto hstep
      obtain ⟨lv, hl, htrace, hcalls, h1, h2, h3, h4, h5⟩ :=
        ih (server_pass env w debug acc sub now s st1 ipbuf label)
      have hrd : (server_read env acc s st1.run).1 = (server_read env acc s st.run).1 := by
        simp [server_read, Run.peek, Run.call, hwo]
      refine ⟨(label, (server_read env acc s st.run).1) :: lv, by simp [hl], ?_, ?_, ?_, ?_,
        ?_, ?_, ?_⟩
      · rw [hstep, htrace, server_pass_trace, htr, hrd]; simp
      · rw [hstep, hcalls, server_pass_calls, hca]; simp
      · rw [hstep, h1]; simp [server_pass, hrd, hto]
      · rw [hstep, h2]; simp [server_pass, hrd, hto]
      · rw [hstep, h3]; simp [server_pass, hrd, hto]
      · rw [hstep, h4]; simp [server_pass, hrd, hto]
      · rw [hstep, h5]; simp [server_pass, hrd, hto]
    cases hscan : underscore_dots (server_label env st.ipbuf s) with
    | none =>
      exact key { st with run := { st.run with fault := true } } _ _ rfl rfl rfl rfl
        (by rw [server_loop, hscan])
    | some scanned =>
      exact key st _ _ rfl rfl rfl rfl (by rw [server_loop, hscan])

end server_loop

/-! ## The emission cycle -/

section cycle
variable {σ : Type} (env : Env σ) (w debug : Nat) (acc : Accessors) (sub now : Nat)

theorem dispatcher_loop_spec (ds : List Ptr) (i : Nat) (t : DispTotals)
    (r : Run σ (Sink × Line)) :
    ∃ dv : List DispVals, dv.length = ds.length ∧
      (dispatcher_loop env w debug acc sub now i ds t r).2.fault = r.fault ∧
      (dispatcher_loop env w debug acc sub now i ds t r).2.trace = r.trace ++
        ((List.zip ds dv).enumFrom i).flatMap
          (fun x => dispatcher_events w debug acc sub now x.1 x.2.1 x.2.2) ∧
      (dispatcher_loop env w debug acc sub now i ds t r).2.calls = r.calls ++
        ds.flatMap (dispatcher_calls acc) ∧
      (dispatcher_loop env w debug acc sub now i ds t r).1 =
        dv.foldl (fun t v => dispatcher_add w t (v.locals w)) t := by
  induction ds generalizing i t r with
  | nil => exact ⟨[], rfl, rfl, by simp [dispatcher_loop], by simp [dispatcher_loop], rfl⟩
  | cons d ds ih =>
    obtain ⟨dv, hl, hf, ht, hc, hto⟩ := ih (i + 1)
      (dispatcher_add w t ((dispatcher_read env acc d r).1.locals w))
      ((dispatcher_read env acc d r).2.sends env debug sub
        (dispatcher_lines now i ((dispatcher_read env acc d r).1.locals w)))
    refine ⟨(dispatcher_read env acc d r).1 :: dv, by simp [hl], ?_, ?_, ?_, ?_⟩
    · rw [dispatcher_loop, hf]; simp
    · rw [dispatcher_loop, ht]
      simp [dispatcher_read_trace, List.enumFrom_cons, dispatcher_events]
    · rw [dispatcher_loop, hc]; simp [dispatcher_read_calls, dispatcher_calls]
    · rw [dispatcher_loop, hto]; rfl

theorem sound_dispatcher_loop (world0 : σ) (ds : List Ptr) (i : Nat) (t : DispTotals)
    (r : Run σ (Sink × Line)) (h : r.sound env (send_effect env) world0) :
    (dispatcher_loop env w debug acc sub now i ds t r).2.sound env (send_effect env)
      world0 := by
  induction ds generalizing i t r with
  | nil => exact h
  | cons d ds ih =>
    rw [dispatcher_loop]
    exact ih _ _ _ (sound_sends env _ _ _ _ _ (sound_dispatcher_read env _ _ _ _ _ h))

theorem cycle_tail_spec (aggrs numaggregators : Nat) (r : Run σ (Sink × Line)) :
    (cycle_tail env w debug acc sub aggrs numaggregators now r).fault = r.fault ∧
    (cycle_tail env w debug acc sub aggrs numaggregators now r).calls = r.calls ++
      [(Fn.dispatch_get_accepted_connections, NULL), (Fn.dispatch_get_closed_connections, NULL)]
      ++ (if numaggregators > 0
          then [(acc.a_received, aggrs), (acc.a_sent, aggrs), (acc.a_dropped, aggrs)] else []) ∧
    ∃ c dc a1 a2 a3 : Nat,
      (cycle_tail env w debug acc sub aggrs numaggregators now r).trace = r.trace ++
        (report_events w debug sub now "connections"
            Fn.dispatch_get_accepted_connections NULL c ++
          report_events w debug sub now "disconnects"
            Fn.dispatch_get_closed_connections NULL dc ++
          (if numaggregators > 0
            then report_events w debug sub now "aggregators.metricsReceived"
                    acc.a_received aggrs a1 ++
                  report_events w debug sub now "aggregators.metricsSent"
                    acc.a_sent aggrs a2 ++
                  report_events w debug sub now "aggregators.metricsDropped"
                    acc.a_dropped aggrs a3
            else [])) := by
  unfold cycle_tail
  by_cases h : numaggregators > 0
  · simp only [h, if_true]
    refine ⟨by simp, by simp, ?_⟩
    simp only [report_trace, List.append_assoc]
    exact ⟨_, _, _, _, _, rfl⟩
  · simp only [h, if_false]
    refine ⟨by simp, by simp, ?_⟩
    simp only [report_trace, List.append_assoc, List.append_nil]
    exact ⟨_, _, 0, 0, 0, rfl⟩

theorem sound_cycle_tail (world0 : σ) (aggrs numaggregators : Nat) (r : Run σ (Sink × Line))
    (h : r.sound env (send_effect env) world0) :
    (cycle_tail env w debug acc sub aggrs numaggregators now r).sound env (send_effect env)
      world0 := by
  unfold cycle_tail
  dsimp only
  split
  · exact sound_report env _ _ _ _ _ _ _ _ _ (sound_report env _ _ _ _ _ _ _ _ _
      (sound_report env _ _ _ _ _ _ _ _ _ (sound_report env _ _ _ _ _ _ _ _ _
        (sound_report env _ _ _ _ _ _ _ _ _ h))))
  · exact sound_report env _ _ _ _ _ _ _ _ _ (sound_report env _ _ _ _ _ _ _ _ _ h)

end cycle

theorem strncpy_internal :
    cstr (strncpy ipbuf_init "internal".toList ipbuf_init.length) = "internal".toList ∧
    (strncpy ipbuf_init "internal".toList ipbuf_init.length).length = 32 := by
  decide

/-- Whatever the array holds on entry, line 205 leaves the same 32 bytes. -/
theorem strncpy_internal_any (buf : List Char) (h : buf.length = 32) :
    strncpy buf "internal".toList buf.length
      = strncpy ipbuf_init "internal".toList ipbuf_init.length := by
  have h2 : ipbuf_init.length = 32 := by decide
  unfold strncpy
  rw [h, h2, poke_eq _ _ (by rw [h]; decide), poke_eq _ _ (by rw [h2]; decide)]
  have hl : (List.take 32 (cstr "internal".toList)
      ++ List.replicate (32 - strlen "internal".toList) NUL).length = 32 := by decide
  rw [hl, List.drop_of_length_le (by omega), List.drop_of_length_le (by omega)]

/-- A line that fits into the `sizem - 1` bytes left after the prefix is sent
whole. -/
theorem metric_text_fits (p : Prepared) (l : Line) (h : l.format.length < p.sizem) :
    metric_text p l = p.metric.take p.m ++ l.format := by
  unfold metric_text
  have hl : l.format.length ≤ p.sizem - 1 := by omega
  rw [List.take_of_length_le hl]

/-- When every line of a trace fits, the strings sent are the prefix followed
by the whole formatted line, values included. -/
theorem texts_fit {σ : Type} (p : Prepared) (r : Run σ (Sink × Line))
    (h : ∀ l ∈ r.lines, l.format.length < p.sizem) :
    r.texts p = r.lines.map (fun l => p.metric.take p.m ++ l.format) := by
  unfold Run.texts
  exact List.map_congr_left (fun l hl => metric_text_fits p l (h l hl))

/-- Every emission cycle agrees with the environment: each value in its
sequence of calls and lines is the one the environment returned at that
point. -/
theorem sound_emission_cycle {σ : Type} (env : Env σ) (w debug : Nat) (acc : Accessors)
    (dispatchers : List Ptr) (submission : Ptr) (srvs : List Ptr)
    (aggrs numaggregators now : Nat) (world : σ) :
    (emission_cycle env w debug acc dispatchers submission srvs aggrs numaggregators now
      world).sound env (send_effect env) world := by
  unfold emission_cycle
  dsimp only
  apply sound_cycle_tail
  apply sound_sends
  apply sound_server_loop
  apply sound_sends
  apply sound_server_read
  apply sound_sends
  apply sound_dispatcher_loop
  exact ⟨rfl, rfl, rfl⟩

/-- The totals of a server loop started at zero. -/
theorem sum_locals_eq (w : Nat) (lv : List (List Char × ServerVals)) (t : SrvTotals)
    (h1 : t.totticks = (lv.map (fun x => (x.2.locals w).ticks)).foldl
      (fun t v => size_t w (t + v)) 0)
    (h2 : t.totmetrics = (lv.map (fun x => (x.2.locals w).metrics)).foldl
      (fun t v => size_t w (t + v)) 0)
    (h3 : t.totqueued = (lv.map (fun x => (x.2.locals w).queued)).foldl
      (fun t v => size_t w (t + v)) 0)
    (h4 : t.totstalls = (lv.map (fun x => (x.2.locals w).stalls)).foldl
      (fun t v => size_t w (t + v)) 0)
    (h5 : t.totdropped = (lv.map (fun x => (x.2.locals w).dropped)).foldl
      (fun t v => size_t w (t + v)) 0) :
    t = sum_locals w (lv.map Prod.snd) := by
  have hz : size_t w 0 = 0 := by simp [size_t]
  rw [foldl_size_t w _ 0 hz, Nat.zero_add] at h1 h2 h3 h4 h5
  obtain ⟨t1, t2, t3, t4, t5⟩ := t
  simp only at h1 h2 h3 h4 h5
  simp [sum_locals, h1, h2, h3, h4, h5, List.map_map, Function.comp_def]

/-- The calls of an emission cycle are exactly these, in this order: for each
dispatcher `dispatch_busy` and the three dispatcher accessors, for the
submission server and then each destination server the server accessors and
`server_get_queue_len`, the two connection counts, and the three aggregator
accessors when `numaggregators > 0`. -/
theorem emission_cycle_calls {σ : Type} (env : Env σ) (w debug : Nat) (acc : Accessors)
    (dispatchers : List Ptr) (submission : Ptr) (srvs : List Ptr)
    (aggrs numaggregators now : Nat) (world : σ) :
    (emission_cycle env w debug acc dispatchers submission srvs aggrs numaggregators now
      world).calls = cycle_calls acc dispatchers submission srvs aggrs numaggregators := by
  have hd := dispatcher_loop_spec env w debug acc submission (size_t w now) dispatchers 0
    ⟨0, 0, 0, 0, 0⟩ { world := world, calls := [], out := [], fault := false }
  unfold emission_cycle
  dsimp only
  generalize dispatcher_loop env w debug acc submission (size_t w now) 0 dispatchers
    ⟨0, 0, 0, 0, 0⟩ { world := world, calls := [], out := [], fault := false } = dl at hd ⊢
  obtain ⟨dv, -, -, -, hdc, -⟩ := hd
  have hs := server_loop_spec env w debug acc submission (size_t w now) srvs
    { tot := ⟨0, 0, 0, 0, 0⟩,
      ipbuf := strncpy ipbuf_init "internal".toList ipbuf_init.length,
      run := (server_read env acc submission
          (dl.2.sends env debug submission (dispatch_total_lines (size_t w now) dl.1))).2.sends
        env debug submission
        (send_server_metrics (size_t w now)
          (cstr (strncpy ipbuf_init "internal".toList ipbuf_init.length))
          ((server_read env acc submission
            (dl.2.sends env debug submission
              (dispatch_total_lines (size_t w now) dl.1))).1.locals w)) }
  generalize server_loop env w debug acc submission (size_t w now) srvs _ = sl at hs ⊢
  obtain ⟨lv, -, -, hsc, -⟩ := hs
  rw [(cycle_tail_spec env w debug acc submission (size_t w now) aggrs numaggregators _).2.1,
    sends_calls, hsc]
  simp only [sends_calls, server_read_calls, hdc, List.nil_append]
  unfold cycle_calls server_calls
  simp

theorem count_flatMap_sum {α β : Type} [BEq β] (x : β) (l : List α) (g : α → List β) :
    List.count x (l.flatMap g) = (l.map (fun d => List.count x (g d))).sum := by
  induction l with
  | nil => rfl
  | cons d ds ih => simp [List.flatMap_cons, List.count_append, ih]

theorem sum_map_ite_eq (p : Ptr) (l : List Ptr) :
    (l.map (fun d => if d = p then 1 else 0)).sum = List.count p l := by
  induction l with
  | nil => rfl
  | cons d ds ih =>
    simp only [List.map_cons, List.sum_cons, ih, List.count_cons]
    by_cases h : d = p <;> simp [h, Nat.add_comm]

theorem count_pair_cons (f g : Fn) (p d : Ptr) (l : List (Fn × Ptr)) :
    List.count (f, p) ((g, d) :: l) =
      List.count (f, p) l + (if g = f ∧ d = p then 1 else 0) := by
  rw [List.count_cons]
  simp

theorem cycle_calls_count (acc : Accessors)
    (hacc : acc = sub_accessors ∨ acc = cumulative_accessors)
    (dispatchers : List Ptr) (submission : Ptr) (srvs : List Ptr) (aggrs numaggregators : Nat)
    (p : Ptr) :
    (∀ f ∈ [acc.s_ticks, acc.s_metrics, acc.s_stalls, acc.s_dropped],
      List.count (f, p) (cycle_calls acc dispatchers submission srvs aggrs numaggregators)
        = List.count p (submission :: srvs)) ∧
    (∀ f ∈ [acc.d_ticks, acc.d_metrics, acc.d_blackholes],
      List.count (f, p) (cycle_calls acc dispatchers submission srvs aggrs numaggregators)
        = List.count p dispatchers) ∧
    (∀ f ∈ [acc.a_received, acc.a_sent, acc.a_dropped],
      List.count (f, p) (cycle_calls acc dispatchers submission srvs aggrs numaggregators)
        = if numaggregators > 0 then List.count p [aggrs] else 0) := by
  rcases hacc with rfl | rfl
  all_goals
    refine ⟨?_, ?_, ?_⟩
    all_goals
      intro f hf
      simp only [sub_accessors, cumulative_accessors, List.mem_cons, List.mem_singleton,
        List.mem_nil_iff, or_false] at hf
      unfold cycle_calls
      by_cases hn : numaggregators > 0
      all_goals
        rcases hf with rfl | rfl | rfl | rfl
        all_goals
          simp only [List.count_append, count_flatMap_sum, dispatcher_calls, server_calls,
            sub_accessors, cumulative_accessors, count_pair_cons, List.count_nil, hn, if_true,
            if_false, reduceCtorEq, false_and, true_and, Nat.add_zero, Nat.zero_add,
            List.map_const', List.sum_replicate, smul_eq_mul, Nat.mul_zero, sum_map_ite_eq,
            List.count_cons, beq_iff_eq, Prod.mk.injEq]
          try omega

theorem cycle_calls_fn (acc : Accessors) (dispatchers : List Ptr) (submission : Ptr)
    (srvs : List Ptr) (aggrs numaggregators : Nat) (x : Fn × Ptr)
    (hx : x ∈ cycle_calls acc dispatchers submission srvs aggrs numaggregators) :
    x.1 ∈ acc.list ∨ x.1 ∈ plain_functions := by
  unfold cycle_calls at hx
  simp only [List.mem_append, List.mem_flatMap, dispatcher_calls, server_calls, List.mem_cons,
    List.mem_singleton, List.mem_nil_iff, or_false] at hx
  simp only [Accessors.list, plain_functions, List.mem_cons, List.mem_singleton,
    List.mem_nil_iff, or_false]
  rcases hx with (((⟨_, _, h⟩ | h) | ⟨_, _, h⟩) | h) | h
  · rcases h with rfl | rfl | rfl | rfl <;> simp
  · rcases h with rfl | rfl | rfl | rfl | rfl <;> simp
  · rcases h with rfl | rfl | rfl | rfl | rfl <;> simp
  · rcases h with rfl | rfl <;> simp
  · split at h
    · simp only [List.mem_cons, List.mem_singleton, List.mem_nil_iff, or_false] at h
      rcases h with rfl | rfl | rfl <;> simp
    · simp at h

theorem collector_start_accessors (mode : rmode) (d : List Ptr) (c a : Ptr) (cum : Nat)
    (g : Globals) (hg : g.debug = 0) :
    select_accessors (collector_start mode d c a cum g).1.debug =
      if cum = 0 then sub_accessors else cumulative_accessors := by
  unfold collector_start collector_schedulereload
  by_cases hm : mode = rmode.DEBUG ∨ mode = rmode.DEBUGTEST ∨ mode = rmode.DEBUGSUBMISSION <;>
    by_cases hc : cum = 0 <;> simp [hm, hc, hg, select_accessors]

/-- C3: from `debug = 0`, after `collector_start(d, c, a, submission, cum)`
the function pointers of `collector_runner` are the ten `_sub` accessors if
and only if `cum == 0` and the ten cumulative accessors if and only if
`cum != 0`. The calls of an emission cycle are exactly: for every entry of the
dispatcher array `dispatch_busy` and the three selected dispatcher accessors,
for the submission server and every entry of the server list the four selected
server accessors and `server_get_queue_len`, the two connection counts, and,
when `numaggregators > 0`, the three selected aggregator accessors on the
aggregator set. So no accessor of the other family is called, and each
selected accessor is called on a pointer `p` exactly as often as `p` occurs
among the entries it is applied to: once per server, dispatcher or aggregator
set, never twice. -/
theorem runner_accessors {σ : Type} (env : Env σ) (w : Nat) (mode : rmode) (d : List Ptr)
    (c a : Ptr) (cum : Nat) (g : Globals) (t0 : Nat) (hg : g.debug = 0) (acc : Accessors)
    (hacc : acc = (collector_runner_enter (collector_start mode d c a cum g).1 t0).acc)
    (debug : Nat) (dispatchers : List Ptr) (submission : Ptr) (srvs : List Ptr)
    (aggrs numaggregators now : Nat) (world : σ) :
    (acc = sub_accessors ↔ cum = 0) ∧
    (acc = cumulative_accessors ↔ cum ≠ 0) ∧
    (emission_cycle env w debug acc dispatchers submission srvs aggrs numaggregators
        now world).calls =
      dispatchers.flatMap (fun x => [(Fn.dispatch_busy, x), (acc.d_ticks, x),
        (acc.d_metrics, x), (acc.d_blackholes, x)]) ++
      [(acc.s_ticks, submission), (acc.s_metrics, submission),
        (Fn.server_get_queue_len, submission), (acc.s_stalls, submission),
        (acc.s_dropped, submission)] ++
      srvs.flatMap (fun x => [(acc.s_ticks, x), (acc.s_metrics, x),
        (Fn.server_get_queue_len, x), (acc.s_stalls, x), (acc.s_dropped, x)]) ++
      [(Fn.dispatch_get_accepted_connections, NULL),
        (Fn.dispatch_get_closed_connections, NULL)] ++
      (if numaggregators > 0
        then [(acc.a_received, aggrs), (acc.a_sent, aggrs), (acc.a_dropped, aggrs)]
        else []) ∧
    (∀ x ∈ (emission_cycle env w debug acc dispatchers submission srvs aggrs numaggregators
        now world).calls, x.1 ∈ acc.list ∨ x.1 ∈ plain_functions) ∧
    (cum = 0 → ∀ x ∈ (emission_cycle env w debug acc dispatchers submission srvs aggrs
        numaggregators now world).calls, x.1 ∉ cumulative_accessors.list) ∧
    (cum ≠ 0 → ∀ x ∈ (emission_cycle env w debug acc dispatchers submission srvs aggrs
        numaggregators now world).calls, x.1 ∉ sub_accessors.list) ∧
    (∀ p : Ptr,
      (∀ f ∈ [acc.s_ticks, acc.s_metrics, acc.s_stalls, acc.s_dropped],
        (emission_cycle env w debug acc dispatchers submission srvs aggrs numaggregators
          now world).calls.count (f, p) = (submission :: srvs).count p) ∧
      (∀ f ∈ [acc.d_ticks, acc.d_metrics, acc.d_blackholes],
        (emission_cycle env w debug acc dispatchers submission srvs aggrs numaggregators
          now world).calls.count (f, p) = dispatchers.count p) ∧
      (∀ f ∈ [acc.a_received, acc.a_sent, acc.a_dropped],
        (emission_cycle env w debug acc dispatchers submission srvs aggrs numaggregators
          now world).calls.count (f, p) =
          if numaggregators > 0 then [aggrs].count p else 0)) := by
  have hsel : acc = if cum = 0 then sub_accessors else cumulative_accessors := by
    rw [hacc]
    exact collector_start_accessors mode d c a cum g hg
  have hne : sub_accessors ≠ cumulative_accessors := by decide
  have hcalls := emission_cycle_calls env w debug acc dispatchers submission srvs aggrs
    numaggregators now world
  have hfn : ∀ x ∈ (emission_cycle env w debug acc dispatchers submission srvs aggrs
      numaggregators now world).calls, x.1 ∈ acc.list ∨ x.1 ∈ plain_functions :=
    fun x hx => cycle_calls_fn acc dispatchers submission srvs aggrs numaggregators x
      (hcalls ▸ hx)
  have hcase : acc = sub_accessors ∨ acc = cumulative_accessors := by
    by_cases hc : cum = 0
    · left; simpa [hc] using hsel
    · right; simpa [hc] using hsel
  refine ⟨?_, ?_, ?_, hfn, ?_, ?_, ?_⟩
  · by_cases hc : cum = 0
    · simp [hc, hsel]
    · simp [hc, hsel, hne.symm]
  · by_cases hc : cum = 0
    · simp [hc, hsel, hne]
    · simp [hc, hsel]
  · rw [hcalls]
    rfl
  · intro hc x hx hmem
    have hs : acc = sub_accessors := by simpa [hc] using hsel
    have := hfn x hx
    rw [hs] at this
    revert this hmem
    generalize x.1 = f
    revert f
    decide
  · intro hc x hx hmem
    have hs : acc = cumulative_accessors := by simpa [hc] using hsel
    have := hfn x hx
    rw [hs] at this
    revert this hmem
    generalize x.1 = f
    revert f
    decide
  · intro p
    rw [hcalls]
    exact cycle_calls_count acc hcase dispatchers submission srvs aggrs numaggregators p

/-! ## The refresh block -/

/-- C2: the refresh block of `collector_runner`, and identically that of
`collector_writer`, replaces the working state as a whole: whatever the
previous working state, with the pair `(c, a)` pending the working state after
the block is exactly `(router_getservers(c), a, aggregator_numaggregators(a))`
and the pending flag is cleared, so two different previous working states end
in the same one. The block runs at the top of the iteration only: an emission
cycle run in that iteration is computed from this one `(srvs, aggrs)` pair,
and without a pending refresh from the unchanged working pair. -/
theorem refresh_replaces {σ : Type} (env : Env σ) (cfg : Config) (w : Nat) (g0 : Globals)
    (c a : Ptr) (wk wk' : Working) :
    collector_runner_refresh cfg (collector_schedulereload c a g0) wk =
      ({ collector_schedulereload c a g0 with cluster_refresh_pending := 0 },
       { srvs := cfg.router_getservers c, aggrs := a,
         numaggregators := cfg.aggregator_numaggregators a }) ∧
    collector_writer_refresh cfg (collector_schedulereload c a g0) wk =
      collector_runner_refresh cfg (collector_schedulereload c a g0) wk ∧
    collector_reloadcomplete
      (collector_runner_refresh cfg (collector_schedulereload c a g0) wk).1 = true ∧
    (collector_runner_refresh cfg (collector_schedulereload c a g0) wk).2 =
      (collector_runner_refresh cfg (collector_schedulereload c a g0) wk').2 ∧
    (∀ (submission : Ptr) (l : RunnerLocals) (now : Nat) (world : σ) (srvs : List Ptr),
      g0.keep_running ≠ 0 → cfg.router_getservers c = some srvs → l.nextcycle ≤ now →
      (collector_runner_iteration env cfg w submission (collector_schedulereload c a g0) l now
        world).2.2 =
        RunnerStep.cycle (emission_cycle env w g0.debug l.acc g0.dispatchers submission srvs a
          (cfg.aggregator_numaggregators a) now world)) ∧
    (∀ (submission : Ptr) (l : RunnerLocals) (now : Nat) (world : σ) (srvs : List Ptr),
      g0.keep_running ≠ 0 → g0.cluster_refresh_pending = 0 → l.wk.srvs = some srvs →
      l.nextcycle ≤ now →
      (collector_runner_iteration env cfg w submission g0 l now world).2.2 =
        RunnerStep.cycle (emission_cycle env w g0.debug l.acc g0.dispatchers submission srvs
          l.wk.aggrs l.wk.numaggregators now world)) := by
  refine ⟨?_, rfl, ?_, ?_, ?_, ?_⟩
  · simp [collector_runner_refresh, collector_schedulereload]
  · simp [collector_runner_refresh, collector_schedulereload, collector_reloadcomplete]
  · simp [collector_runner_refresh, collector_schedulereload]
  · intro submission l now world srvs hk hs hn
    have hk2 : (collector_schedulereload c a g0).keep_running ≠ 0 := hk
    simp only [collector_runner_iteration, hk2, if_false]
    simp [collector_runner_refresh, collector_schedulereload, hs, Nat.not_lt.2 hn]
  · intro submission l now world srvs hk hp hs hn
    simp only [collector_runner_iteration, hk, if_false]
    simp [collector_runner_refresh, hp, hs, Nat.not_lt.2 hn]

/-- Witness for C2: with a reload of `(6, 0)` pending, two different earlier
working states end in the same one, and the cycle run in that iteration is
the cycle of server list `[6]` and aggregator set `0`. -/
theorem refresh_replaces_witness :
    (collector_runner_refresh demo_cfg (collector_schedulereload 6 0 Globals.init)
        ⟨some [7], 8, 9⟩).2 =
      (collector_runner_refresh demo_cfg (collector_schedulereload 6 0 Globals.init)
        Working.init).2 ∧
    (collector_runner_iteration demo_env demo_cfg 64 5
        (collector_schedulereload 6 0 Globals.init)
        { wk := ⟨some [7], 8, 9⟩, nextcycle := 60, acc := cumulative_accessors } 100 ()).2.2 =
      RunnerStep.cycle
        (emission_cycle demo_env 64 0 cumulative_accessors [] 5 [6] 0 0 100 ()) :=
  ⟨(refresh_replaces demo_env demo_cfg 64 Globals.init 6 0 ⟨some [7], 8, 9⟩
      Working.init).2.2.2.1,
   (refresh_replaces demo_env demo_cfg 64 Globals.init 6 0 ⟨some [7], 8, 9⟩
      Working.init).2.2.2.2.1 5
      { wk := ⟨some [7], 8, 9⟩, nextcycle := 60, acc := cumulative_accessors } 100 () [6]
      (by decide) rfl (by decide)⟩

/-! ## Concrete runs -/

/-- Witness for C3: started with `cum = 0` in a mode that is not a debug mode,
the runner holds the delta accessors and a cycle calls no cumulative
accessor. -/
theorem runner_accessors_witness :
    (collector_runner_enter (collector_start (rmode.other 0) [4] 2 3 0 Globals.init).1 0).acc
      = sub_accessors ∧
    ∀ x ∈ (emission_cycle demo_env 64 0
        (collector_runner_enter (collector_start (rmode.other 0) [4] 2 3 0 Globals.init).1 0).acc
        [4] 5 [6, 9] 3 1 100 ()).calls, x.1 ∉ cumulative_accessors.list :=
  ⟨(runner_accessors demo_env 64 (rmode.other 0) [4] 2 3 0 Globals.init 0 rfl _ rfl
      0 [4] 5 [6, 9] 3 1 100 ()).1.2 rfl,
   (runner_accessors demo_env 64 (rmode.other 0) [4] 2 3 0 Globals.init 0 rfl _ rfl
      0 [4] 5 [6, 9] 3 1 100 ()).2.2.2.2.1 rfl⟩

/-- The calls of that cycle: the delta accessors, once for each dispatcher,
server and the aggregator set. -/
theorem emission_cycle_calls_demo :
    (emission_cycle demo_env 64 0 sub_accessors [4] 5 [6, 9] 3 1 100 ()).calls =
      [(Fn.dispatch_busy, 4), (Fn.dispatch_get_ticks_sub, 4), (Fn.dispatch_get_metrics_sub, 4),
       (Fn.dispatch_get_blackholes_sub, 4),
       (Fn.server_get_ticks_sub, 5), (Fn.server_get_metrics_sub, 5),
       (Fn.server_get_queue_len, 5), (Fn.server_get_stalls_sub, 5),
       (Fn.server_get_dropped_sub, 5),
       (Fn.server_get_ticks_sub, 6), (Fn.server_get_metrics_sub, 6),
       (Fn.server_get_queue_len, 6), (Fn.server_get_stalls_sub, 6),
       (Fn.server_get_dropped_sub, 6),
       (Fn.server_get_ticks_sub, 9), (Fn.server_get_metrics_sub, 9),
       (Fn.server_get_queue_len, 9), (Fn.server_get_stalls_sub, 9),
       (Fn.server_get_dropped_sub, 9),
       (Fn.dispatch_get_accepted_connections, 0), (Fn.dispatch_get_closed_connections, 0),
       (Fn.aggregator_get_received_sub, 3), (Fn.aggregator_get_sent_sub, 3),
       (Fn.aggregator_get_dropped_sub, 3)] := by
  decide

/-- The lines of a cycle over an address server and a file server with a
short name, from the submission server on: the totals are those of servers 6
and 9, the values of the submission server 5 are on the `internal` lines
only. -/
theorem emission_cycle_demo :
    ((emission_cycle demo_env 64 0 cumulative_accessors [] 5 [6, 9] 3 0 100 ()).lines.map
      (fun l => (String.mk l.name, l.value))).drop 5 =
      [("destinations.internal.sent", 500), ("destinations.internal.queued", 2),
       ("destinations.internal.stalls", 3), ("destinations.internal.dropped", 5),
       ("destinations.internal.wallTime_us", 7),
       ("destinations.10_0_0_1:2006.sent", 600), ("destinations.10_0_0_1:2006.queued", 2),
       ("destinations.10_0_0_1:2006.stalls", 3), ("destinations.10_0_0_1:2006.dropped", 6),
       ("destinations.10_0_0_1:2006.wallTime_us", 7),
       ("destinations./tmp/relay_out.sent", 900), ("destinations./tmp/relay_out.queued", 2),
       ("destinations./tmp/relay_out.stalls", 3), ("destinations./tmp/relay_out.dropped", 9),
       ("destinations./tmp/relay_out.wallTime_us", 7),
       ("metricsSent", 1500), ("metricsQueued", 4), ("metricStalls", 6),
       ("metricsDropped", 15), ("server_wallTime_us", 14),
       ("connections", 5), ("disconnects", 5)] := by
  decide

/-- The 22 lines of a cycle over the file server with the 35-character name
(no dispatchers, no aggregators): the label runs on into the bytes `XY` after
`ipbuf`, and the cycle goes on to the totals, which are those of that
server. -/
theorem emission_cycle_long_file :
    (emission_cycle long_file_env 64 0 cumulative_accessors [] 5 [9] 0 0 100 ()).lines.map
      (fun l => (String.mk l.name, l.value)) =
      [("metricsReceived", 0), ("metricsBlackholed", 0), ("dispatch_wallTime_us", 0),
       ("dispatch_busy", 0), ("dispatch_idle", 0),
       ("destinations.internal.sent", 500), ("destinations.internal.queued", 2),
       ("destinations.internal.stalls", 3), ("destinations.internal.dropped", 5),
       ("destinations.internal.wallTime_us", 7),
       ("destinations./var/log/carbon-c-relay/metrics_XY.sent", 900),
       ("destinations./var/log/carbon-c-relay/metrics_XY.queued", 2),
       ("destinations./var/log/carbon-c-relay/metrics_XY.stalls", 3),
       ("destinations./var/log/carbon-c-relay/metrics_XY.dropped", 9),
       ("destinations./var/log/carbon-c-relay/metrics_XY.wallTime_us", 7),
       ("metricsSent", 900), ("metricsQueued", 2), ("metricStalls", 3),
       ("metricsDropped", 9), ("server_wallTime_us", 7),
       ("connections", 5), ("disconnects", 5)] := by
  decide

/-- C8 fails for file servers: for the `CON_FILE` server 9 with the
35-character name `/var/log/carbon-c-relay/metrics.out`, after the `strncpy`
of line 215 the 32 bytes of `ipbuf` contain no NUL, the scan of lines 220-222
leaves the array, and the trace of the cycle records it. -/
theorem ipbuf_overrun_file_server :
    (server_label long_file_env
      (strncpy ipbuf_init "internal".toList ipbuf_init.length) 9).length = 32 ∧
    NUL ∉ server_label long_file_env
      (strncpy ipbuf_init "internal".toList ipbuf_init.length) 9 ∧
    underscore_dots (server_label long_file_env
      (strncpy ipbuf_init "internal".toList ipbuf_init.length) 9) = none ∧
    (emission_cycle long_file_env 64 0 cumulative_accessors [] 5 [9] 0 0 100 ()).fault
      = true := by
  decide
/-! ## The drop warnings of the writer -/

theorem size_t_sub_of_le (w a b : Nat) (ha : a < 2 ^ w) (hba : b ≤ a) :
    size_t_sub w a b = a - b := by
  have hb : b < 2 ^ w := by omega
  unfold size_t_sub size_t
  rw [Nat.mod_eq_of_lt hb]
  have : a + (2 ^ w - b) = (a - b) + 2 ^ w := by omega
  rw [this, Nat.add_mod_right, Nat.mod_eq_of_lt (by omega)]

theorem size_t_sub_of_lt (w a b : Nat) (hb : b < 2 ^ w) (hab : a < b) :
    size_t_sub w a b = 2 ^ w - (b - a) := by
  unfold size_t_sub size_t
  rw [Nat.mod_eq_of_lt hb, Nat.mod_eq_of_lt (by omega)]
  omega

/-- The test `totdropped - lastdropped > 0` of lines 389 and 394 holds
whenever the two totals differ, also when the new one is the lower. -/
theorem size_t_sub_pos_iff (w a b : Nat) (ha : a < 2 ^ w) (hb : b < 2 ^ w) :
    size_t_sub w a b > 0 ↔ a ≠ b := by
  rcases Nat.lt_or_ge a b with h | h
  · rw [size_t_sub_of_lt w a b hb h]; omega
  · rw [size_t_sub_of_le w a b ha h]; omega

/-- C6 fails when a total goes down. A writer with `collector_interval = 1`
starts with cluster 10, whose server has dropped 10 metrics: the first check
warns about 10 dropped metrics. A reload then installs cluster 6, whose server
has dropped 6: the second check finds the total 6 below the recorded 10 and
still logs a warning, for `2 ^ 64 - 4` metrics. The aggregator warning wraps
in the same way (total 5 after 8). -/
theorem dropped_warning_wraps :
    (collector_writer_iteration demo_env demo_cfg 64 demo_start collector_writer_enter
      ()).2.2.msgs = [Msg.dropped 10] ∧
    (collector_writer_iteration demo_env demo_cfg 64 demo_start collector_writer_enter
      ()).1.lastdropped = 10 ∧
    (collector_writer_iteration demo_env demo_cfg 64
      (collector_schedulereload 6 0
        (collector_writer_iteration demo_env demo_cfg 64 demo_start collector_writer_enter
          ()).1)
      (collector_writer_iteration demo_env demo_cfg 64 demo_start collector_writer_enter
        ()).2.1
      ()).2.2.msgs = [Msg.dropped 18446744073709551612] ∧
    (collector_writer_check demo_env 64
      { Globals.init with lastdropped := 10, lastaggrdropped := 8 } [6] 3 1
      { world := (), calls := [], out := [], fault := false }).2.out =
      [Msg.dropped 18446744073709551612, Msg.aggr_dropped 18446744073709551613] := by
  decide

theorem size_t_lt (w n : Nat) : size_t w n < 2 ^ w :=
  Nat.mod_lt _ (Nat.two_pow_pos w)

theorem check_servers_spec {σ : Type} (env : Env σ) (w : Nat) (srvs : List Ptr) (tot : Nat)
    (r : Run σ Msg) (htot : tot < 2 ^ w) :
    (check_servers env w srvs tot r).1 < 2 ^ w ∧
    (∀ n, Msg.dropped n ∈ (check_servers env w srvs tot r).2.out → Msg.dropped n ∈ r.out) ∧
    (∀ n, Msg.aggr_dropped n ∈ (check_servers env w srvs tot r).2.out →
      Msg.aggr_dropped n ∈ r.out) := by
  induction srvs generalizing tot r with
  | nil => exact ⟨htot, fun _ h => h, fun _ h => h⟩
  | cons s rest ih =>
    rw [check_servers]
    obtain ⟨h1, h2, h3⟩ := ih (size_t w (tot + size_t w
        (Run.peek env Fn.server_get_dropped s
          ((r.call env Fn.server_get_queue_len s).call env Fn.server_get_queue_size s))))
      (if env.usage_ge_075 (size_t w (r.peek env Fn.server_get_queue_len s))
          (size_t w ((r.call env Fn.server_get_queue_len s).peek env
            Fn.server_get_queue_size s))
        then (((r.call env Fn.server_get_queue_len s).call env Fn.server_get_queue_size
            s).call env Fn.server_get_dropped s).log
          (Msg.queuing (cstr (env.server_ip s)) (env.server_port s)
            (size_t w (r.peek env Fn.server_get_queue_len s))
            (env.usage_percent (size_t w (r.peek env Fn.server_get_queue_len s))
              (size_t w ((r.call env Fn.server_get_queue_len s).peek env
                Fn.server_get_queue_size s))))
        else ((r.call env Fn.server_get_queue_len s).call env Fn.server_get_queue_size
            s).call env Fn.server_get_dropped s)
      (size_t_lt _ _)
    refine ⟨h1, fun n hn => ?_, fun n hn => ?_⟩
    · have := h2 n hn
      split at this
      · simpa [Run.log] using this
      · simpa using this
    · have := h3 n hn
      split at this
      · simpa [Run.log] using this
      · simpa using this

/-- What the periodic check does about the server drop counters: started on
an empty trace with an earlier total in range, it logs `dropped n` exactly when
the new total differs from the earlier one, `n` being their difference
modulo `2 ^ w`; so it is silent when the total is unchanged, reports the
increase when it grew, and reports `2 ^ w` minus the decrease when it fell. -/
theorem writer_check_dropped {σ : Type} (env : Env σ) (w : Nat) (g : Globals)
    (srvs : List Ptr) (aggrs numaggregators : Nat) (world : σ) (n : Nat)
    (hlast : g.lastdropped < 2 ^ w) :
    (Msg.dropped n ∈ (collector_writer_check env w g srvs aggrs numaggregators
        { world := world, calls := [], out := [], fault := false }).2.out ↔
      (check_servers env w srvs 0
        { world := world, calls := [], out := [], fault := false }).1 ≠ g.lastdropped ∧
      n = size_t_sub w (check_servers env w srvs 0
        { world := world, calls := [], out := [], fault := false }).1 g.lastdropped) ∧
    (collector_writer_check env w g srvs aggrs numaggregators
        { world := world, calls := [], out := [], fault := false }).1.lastdropped =
      (check_servers env w srvs 0
        { world := world, calls := [], out := [], fault := false }).1 := by
  obtain ⟨hlt, hno, -⟩ := check_servers_spec env w srvs 0
    { world := world, calls := [], out := [], fault := false } (Nat.two_pow_pos w)
  have hpos := size_t_sub_pos_iff w _ _ hlt hlast
  unfold collector_writer_check
  dsimp only
  generalize check_servers env w srvs 0
    { world := world, calls := [], out := [], fault := false } = cs at hlt hno hpos ⊢
  have hno2 : ∀ n, Msg.dropped n ∉ cs.2.out := fun n h => by simpa using hno n h
  constructor
  · by_cases hd : cs.1 = g.lastdropped
    · have hz : ¬ size_t_sub w cs.1 g.lastdropped > 0 := fun h => (hpos.1 h) hd
      by_cases hn : numaggregators > 0
      · simp only [hn, if_true, hz, if_false]
        split <;> simp [Run.log, hno2, hd]
      · simp only [hn, if_false, hz]
        simp [hno2, hd]
    · have hz : size_t_sub w cs.1 g.lastdropped > 0 := hpos.2 hd
      by_cases hn : numaggregators > 0
      · simp only [hn, if_true, hz]
        split <;> simp [Run.log, hno2, hd]
      · simp only [hn, if_false, hz, if_true]
        simp [Run.log, hno2, hd]
  · split <;> rfl
end Collector
